import Mathlib

/-!
# PCI pipe buffer lifecycle of the athp driver

A shallow embedding of `if_athp_pci_pipe.c`: receive replenishment
(`__ath10k_pci_rx_post_buf`, `__ath10k_pci_rx_post_pipe`, `ath10k_pci_rx_post`),
completion dispatch (`ath10k_pci_ce_send_done`, `ath10k_pci_ce_recv_data`) and
teardown (`ath10k_pci_rx_pipe_cleanup`, `ath10k_pci_tx_pipe_cleanup`,
`ath10k_pci_buffer_cleanup`).

The device-wide state is threaded explicitly (`Dev`): the live buffers, the
DMA-mapped buffers and a log of the externally visible actions in the order
they happen.  The outcomes of the primitives that may fail (buffer
allocation, DMA mapping, a ring fault) are given by an environment `Env`,
indexed by the number of the `__ath10k_pci_rx_post_buf` call.  The copy-engine
ring, whose code lives in another file, is modelled from the specification.
Locking is not modelled.
-/

namespace Athp

/-! ## Error numbers -/

/-- The errno value of "out of memory". -/
def ENOMEM : Int := 12

/-- The errno value of "input/output error", used for a DMA mapping failure. -/
def EIO : Int := 5

/-- The errno value reported by the ring when it has no free slot. -/
def ENOSPC : Int := 28

/-! ## Data model -/

/-- A transfer buffer (`struct sk_buff` / `struct mbuf`): an identity, the
valid data length `len` and the room left behind the data. Its capacity is
`len + tailroom`. -/
structure SkBuff where
  /-- The identity of the buffer (its address). -/
  id : Nat
  /-- The valid data length, `skb->len`. -/
  len : Nat
  /-- The room left, `skb_tailroom(skb)`. -/
  tailroom : Nat
deriving DecidableEq, Repr

/-- The function `skb_put(skb, nbytes)`: extend the valid data by `nbytes`.
The result is the buffer of the source when `nbytes` is at most the room
left; a larger `nbytes` runs past the end of the buffer in the source, and
the statements on delivered buffers exclude it (`recv_in_range`). -/
def skb_put (skb : SkBuff) (nbytes : Nat) : SkBuff :=
  { skb with len := skb.len + nbytes, tailroom := skb.tailroom - nbytes }

/-- The externally visible actions of the pipe layer, logged in order. -/
inductive Event where
  /-- A buffer was allocated (`m_get2` returned it). -/
  | m_get2 (id : Nat)
  /-- A buffer was mapped for DMA (`dma_map_single`). -/
  | dma_map (id : Nat)
  /-- A buffer was unmapped (`dma_unmap_single`). -/
  | dma_unmap (id : Nat)
  /-- A buffer was freed (`dev_kfree_skb_any`). -/
  | kfree_skb (id : Nat)
  /-- The ring accepted a buffer (`__ath10k_ce_rx_post_buf` returned 0). -/
  | ce_rx_post (id : Nat)
  /-- Slot `i` of a ring had its `per_transfer_context` set to NULL by a cleanup. -/
  | ctx_clear (i : Nat)
  /-- A warning was printed (`ath10k_warn`). -/
  | warn
  /-- The timer `rx_post_retry` was armed (`mod_timer`). -/
  | mod_timer
  /-- The callback `rx_completion(ar, skb)` was invoked. -/
  | rx_completion (skb : SkBuff)
  /-- The callback `tx_completion(ar, skb)` was invoked. -/
  | tx_completion (skb : SkBuff)
deriving DecidableEq, Repr

/-- A copy-engine ring (`struct ath10k_ce_ring`). The slot table
`per_transfer_context` has `nentries` entries, NULL being `none`.
`completed` is the queue of completions the hardware has produced and the
driver has not yet fetched: slot number and reported byte count, oldest
first. -/
structure CeRing where
  /-- The transfer context of every slot. -/
  per_transfer_context : List (Option SkBuff)
  /-- Whether `shadow_base` is non-NULL (source rings). -/
  shadow_base : Bool
  /-- The pending completions: slot and byte count. -/
  completed : List (Nat × Nat)
deriving DecidableEq, Repr

/-- The number of slots of a ring, `ce_ring->nentries`. -/
def CeRing.nentries (r : CeRing) : Nat := r.per_transfer_context.length

/-- A copy-engine pipe (`struct ath10k_ce_pipe`): a source ring and a
destination ring, either of which may be absent. -/
structure CePipe where
  /-- The index of the copy engine. -/
  id : Nat
  /-- The source (transmit) ring, NULL when not configured. -/
  src_ring : Option CeRing
  /-- The destination (receive) ring, NULL when not configured. -/
  dest_ring : Option CeRing
deriving DecidableEq, Repr

/-- A PCI pipe (`struct ath10k_pci_pipe`). -/
structure PciPipe where
  /-- The index of the pipe. -/
  pipe_num : Nat
  /-- The size of the buffers posted for receive; 0 means none are posted. -/
  buf_sz : Nat
  /-- The copy-engine pipe driven by this pipe. -/
  ce_hdl : CePipe
deriving DecidableEq, Repr

/-- The outcomes of the primitives that can fail, indexed by the number of
the `__ath10k_pci_rx_post_buf` call that invokes them. -/
structure Env where
  /-- Whether `m_get2` returns a buffer. -/
  m_get2_ok : Nat → Bool
  /-- Whether `dma_map_single` succeeds. -/
  dma_map_ok : Nat → Bool
  /-- The fault code of the ring for this post, 0 when there is no fault. -/
  ce_fault : Nat → Int

/-- The device-wide state shared by all pipes. -/
structure Dev where
  /-- The identity the next allocated buffer gets. -/
  next_id : Nat
  /-- The number of `__ath10k_pci_rx_post_buf` calls made so far. -/
  calls : Nat
  /-- The buffers that are allocated and not freed. -/
  allocated : List Nat
  /-- The buffers that are DMA-mapped. -/
  mapped : List Nat
  /-- The actions performed so far, oldest first. -/
  log : List Event
deriving DecidableEq, Repr

/-! ## The copy-engine ring -/

/-- Modelled from the spec: the ring's `free_slot_count()`, whose code
(`__ath10k_ce_rx_num_free_bufs`) is in the copy-engine file. A slot is free
when its transfer context is null. -/
def ce_free_slots : List (Option SkBuff) → Nat
  | [] => 0
  | none :: rest => ce_free_slots rest + 1
  | some _ :: rest => ce_free_slots rest

/-- The number of occupied slots of a slot table. -/
def ce_occupied : List (Option SkBuff) → Nat
  | [] => 0
  | none :: rest => ce_occupied rest
  | some _ :: rest => ce_occupied rest + 1

/-- Modelled from the spec: the slot update of the ring's `post`, which
associates the buffer "with a free slot's transfer-context"; the first free
slot is taken. -/
def ce_store (skb : SkBuff) : List (Option SkBuff) → List (Option SkBuff)
  | [] => []
  | none :: rest => some skb :: rest
  | some x :: rest => some x :: ce_store skb rest

/-- Modelled from the spec: `free_slot_count()` of the destination ring of a
copy-engine pipe (`__ath10k_ce_rx_num_free_bufs`). -/
def __ath10k_ce_rx_num_free_bufs (ce : CePipe) : Nat :=
  match ce.dest_ring with
  | none => 0
  | some r => ce_free_slots r.per_transfer_context

/-- Modelled from the spec: the ring's `post(slot_context, mapped_handle)`,
whose code (`__ath10k_ce_rx_post_buf`) is in the copy-engine file. The ring
rejects the buffer on an internal fault (the code given by the environment)
or when it is full; otherwise the buffer occupies a free slot. -/
def __ath10k_ce_rx_post_buf (fault : Int) (ce : CePipe) (skb : SkBuff) : Int × CePipe :=
  match ce.dest_ring with
  | none => (- EIO, ce)
  | some r =>
    if fault ≠ 0 then (fault, ce)
    else if ce_free_slots r.per_transfer_context = 0 then (-ENOSPC, ce)
    else
      let r1 : CeRing := { r with per_transfer_context := ce_store skb r.per_transfer_context }
      (0, { ce with dest_ring := some r1 })

/-- Modelled from the spec: one successful `next_completed()` of the ring
(`ath10k_ce_completed_recv_next` / `ath10k_ce_completed_send_next`, in the
copy-engine file) for the pending completion `c`: it hands out the transfer
context of the completed slot with the byte count and releases the slot.
The call fails (returns non-zero) when no completion is pending. -/
def ce_completed_next (tbl : List (Option SkBuff)) (c : Nat × Nat) :
    (Option SkBuff × Nat) × List (Option SkBuff) :=
  ((tbl.getD c.1 none, c.2), tbl.set c.1 none)

/-- The sequence of transfer contexts and byte counts the ring reports when
`next_completed()` is called until it fails. -/
def ce_reported (tbl : List (Option SkBuff)) : List (Nat × Nat) → List (Option SkBuff × Nat)
  | [] => []
  | c :: rest => (ce_completed_next tbl c).1 :: ce_reported (ce_completed_next tbl c).2 rest

/-- The slot table after the ring has reported all pending completions. -/
def ce_drained (tbl : List (Option SkBuff)) : List (Nat × Nat) → List (Option SkBuff)
  | [] => tbl
  | c :: rest => ce_drained (ce_completed_next tbl c).2 rest

/-! ## Receive replenishment -/

/-- The function `__ath10k_pci_rx_post_buf`: allocate a buffer of `buf_sz`
bytes, map it and post it to the destination ring. Returns the error code
(0 on success). The source names the fresh buffer `m` where it allocates it
and `skb` afterwards; both are the one buffer here. Call number `d.calls`
is counted, and the fresh buffer gets the identity `d.next_id`. -/
def __ath10k_pci_rx_post_buf (env : Env) (d : Dev) (pipe : PciPipe) : Int × Dev × PciPipe :=
  let j := d.calls
  let d := { d with calls := d.calls + 1 }
  if env.m_get2_ok j = false then
    (-ENOMEM, d, pipe)
  else
    let skb : SkBuff := { id := d.next_id, len := 0, tailroom := pipe.buf_sz }
    let d := { d with next_id := d.next_id + 1, allocated := skb.id :: d.allocated,
                      log := d.log ++ [Event.m_get2 skb.id] }
    if env.dma_map_ok j = false then
      let d2 : Dev := { d with allocated := d.allocated.erase skb.id,
                               log := d.log ++ [Event.warn, Event.kfree_skb skb.id] }
      (- EIO, d2, pipe)
    else
      let d := { d with mapped := skb.id :: d.mapped, log := d.log ++ [Event.dma_map skb.id] }
      let r := __ath10k_ce_rx_post_buf (env.ce_fault j) pipe.ce_hdl skb
      if r.1 ≠ 0 then
        (r.1, { d with mapped := d.mapped.erase skb.id, allocated := d.allocated.erase skb.id,
                       log := d.log ++ [Event.warn, Event.dma_unmap skb.id,
                                        Event.kfree_skb skb.id] },
         { pipe with ce_hdl := r.2 })
      else
        (0, { d with log := d.log ++ [Event.ce_rx_post skb.id] }, { pipe with ce_hdl := r.2 })

/-- The loop `while (num--)` of `__ath10k_pci_rx_post_pipe`: post a buffer
`num` times; on the first failure warn, arm the retry timer and stop. -/
def rx_post_loop (env : Env) : Nat → Dev → PciPipe → Dev × PciPipe
  | 0, d, pipe => (d, pipe)
  | num + 1, d, pipe =>
    let r := __ath10k_pci_rx_post_buf env d pipe
    if r.1 ≠ 0 then
      ({ r.2.1 with log := r.2.1.log ++ [Event.warn, Event.mod_timer] }, r.2.2)
    else
      rx_post_loop env num r.2.1 r.2.2

/-- The function `__ath10k_pci_rx_post_pipe`: fill the free slots of the
destination ring of a pipe with fresh buffers. -/
def __ath10k_pci_rx_post_pipe (env : Env) (d : Dev) (pipe : PciPipe) : Dev × PciPipe :=
  if pipe.buf_sz = 0 then (d, pipe)
  else
    match pipe.ce_hdl.dest_ring with
    | none => (d, pipe)
    | some _ => rx_post_loop env (__ath10k_ce_rx_num_free_bufs pipe.ce_hdl) d pipe

/-- The function `ath10k_pci_rx_post_pipe`: the same under the lock. -/
def ath10k_pci_rx_post_pipe (env : Env) (d : Dev) (pipe : PciPipe) : Dev × PciPipe :=
  __ath10k_pci_rx_post_pipe env d pipe

/-- The function `ath10k_pci_rx_post`: replenish every pipe, in index order. -/
def ath10k_pci_rx_post (env : Env) : Dev → List PciPipe → Dev × List PciPipe
  | d, [] => (d, [])
  | d, pipe :: rest =>
    let r := __ath10k_pci_rx_post_pipe env d pipe
    let s := ath10k_pci_rx_post env r.1 rest
    (s.1, r.2 :: s.2)

/-- The function `ath10k_pci_rx_replenish_retry`, the handler of the timer
`rx_post_retry`. -/
def ath10k_pci_rx_replenish_retry (env : Env) (d : Dev) (pipe_info : List PciPipe) :
    Dev × List PciPipe :=
  ath10k_pci_rx_post env d pipe_info

/-! ## Completion dispatch -/

/-- The first loop of `ath10k_pci_ce_send_done`: fetch the completed sends
and queue the non-NULL transfer contexts. Returns the slot table left and the
queue. -/
def send_loop (tbl : List (Option SkBuff)) (list : List SkBuff) :
    List (Nat × Nat) → List (Option SkBuff) × List SkBuff
  | [] => (tbl, list)
  | c :: rest =>
    match ce_completed_next tbl c with
    | ((none, _), tbl1) => send_loop tbl1 list rest
    | ((some skb, _), tbl1) => send_loop tbl1 (list ++ [skb]) rest

/-- The function `ath10k_pci_ce_send_done`: drain the completed sends of the
source ring, then call `tx_completion` for each queued buffer. -/
def ath10k_pci_ce_send_done (d : Dev) (pipe : PciPipe) : Dev × PciPipe :=
  match pipe.ce_hdl.src_ring with
  | none => (d, pipe)
  | some r =>
    let s := send_loop r.per_transfer_context [] r.completed
    let r1 : CeRing := { r with per_transfer_context := s.1, completed := [] }
    let ce : CePipe := { pipe.ce_hdl with src_ring := some r1 }
    ({ d with log := d.log ++ s.2.map Event.tx_completion }, { pipe with ce_hdl := ce })

/-- The first loop of `ath10k_pci_ce_recv_data`: fetch the completed receives;
unmap each buffer, free it when the ring reports more bytes than it can hold,
else set its length and queue it. The result is `none` when the ring reports
a NULL transfer context, which the code dereferences. The source computes
`max_nbytes` and compares it with `nbytes` in `unsigned int`; the comparison
on natural numbers made here is the same whenever the capacity of the buffer
and the byte count are below 2^32, which the statements on the outcome of the
comparison assume (`recv_in_range`). -/
def recv_loop (d : Dev) (tbl : List (Option SkBuff)) (list : List SkBuff) :
    List (Nat × Nat) → Option (Dev × List (Option SkBuff) × List SkBuff)
  | [] => some (d, tbl, list)
  | c :: rest =>
    match ce_completed_next tbl c with
    | ((none, _), _) => none
    | ((some skb, nbytes), tbl1) =>
      let max_nbytes := skb.len + skb.tailroom
      let d1 := { d with mapped := d.mapped.erase skb.id,
                         log := d.log ++ [Event.dma_unmap skb.id] }
      if max_nbytes < nbytes then
        recv_loop { d1 with allocated := d1.allocated.erase skb.id,
                            log := d1.log ++ [Event.warn, Event.kfree_skb skb.id] } tbl1 list rest
      else
        recv_loop d1 tbl1 (list ++ [skb_put skb nbytes]) rest

/-- The function `ath10k_pci_ce_recv_data`: drain the completed receives of
the destination ring, call `rx_completion` for each queued buffer, then
replenish the pipe. The pipe `pipe_info[ce_state->id]` that is replenished is
the pipe whose `ce_hdl` is `ce_state`. A pipe without a destination ring has
no completion. -/
def ath10k_pci_ce_recv_data (env : Env) (d : Dev) (pipe : PciPipe) : Option (Dev × PciPipe) :=
  match pipe.ce_hdl.dest_ring with
  | none => some (ath10k_pci_rx_post_pipe env d pipe)
  | some r =>
    match recv_loop d r.per_transfer_context [] r.completed with
    | none => none
    | some s =>
      let r1 : CeRing := { r with per_transfer_context := s.2.1, completed := [] }
      let ce : CePipe := { pipe.ce_hdl with dest_ring := some r1 }
      some (ath10k_pci_rx_post_pipe env
        { s.1 with log := s.1.log ++ s.2.2.map Event.rx_completion }
        { pipe with ce_hdl := ce })

/-! ## Teardown -/

/-- The loop of `ath10k_pci_rx_pipe_cleanup` from slot `i` on: every occupied
slot is cleared, then its buffer is unmapped and freed. -/
def rx_cleanup_loop : Dev → Nat → List (Option SkBuff) → Dev × List (Option SkBuff)
  | d, _, [] => (d, [])
  | d, i, none :: rest =>
    let s := rx_cleanup_loop d (i + 1) rest
    (s.1, none :: s.2)
  | d, i, some skb :: rest =>
    let s := rx_cleanup_loop
      { d with mapped := d.mapped.erase skb.id, allocated := d.allocated.erase skb.id,
               log := d.log ++ [Event.ctx_clear i, Event.dma_unmap skb.id,
                                Event.kfree_skb skb.id] } (i + 1) rest
    (s.1, none :: s.2)

/-- The function `ath10k_pci_rx_pipe_cleanup`. -/
def ath10k_pci_rx_pipe_cleanup (d : Dev) (pipe : PciPipe) : Dev × PciPipe :=
  match pipe.ce_hdl.dest_ring with
  | none => (d, pipe)
  | some r =>
    if pipe.buf_sz = 0 then (d, pipe)
    else
      let s := rx_cleanup_loop d 0 r.per_transfer_context
      let r1 : CeRing := { r with per_transfer_context := s.2 }
      let ce : CePipe := { pipe.ce_hdl with dest_ring := some r1 }
      (s.1, { pipe with ce_hdl := ce })

/-- The loop of `ath10k_pci_tx_pipe_cleanup` from slot `i` on: every occupied
slot is cleared, then its buffer is given to `tx_completion`. -/
def tx_cleanup_loop : Dev → Nat → List (Option SkBuff) → Dev × List (Option SkBuff)
  | d, _, [] => (d, [])
  | d, i, none :: rest =>
    let s := tx_cleanup_loop d (i + 1) rest
    (s.1, none :: s.2)
  | d, i, some skb :: rest =>
    let s := tx_cleanup_loop
      { d with log := d.log ++ [Event.ctx_clear i, Event.tx_completion skb] } (i + 1) rest
    (s.1, none :: s.2)

/-- The function `ath10k_pci_tx_pipe_cleanup`. -/
def ath10k_pci_tx_pipe_cleanup (d : Dev) (pipe : PciPipe) : Dev × PciPipe :=
  match pipe.ce_hdl.src_ring with
  | none => (d, pipe)
  | some r =>
    if pipe.buf_sz = 0 then (d, pipe)
    else if r.shadow_base = false then ({ d with log := d.log ++ [Event.warn] }, pipe)
    else
      let s := tx_cleanup_loop d 0 r.per_transfer_context
      let r1 : CeRing := { r with per_transfer_context := s.2 }
      let ce : CePipe := { pipe.ce_hdl with src_ring := some r1 }
      (s.1, { pipe with ce_hdl := ce })

/-- The function `ath10k_pci_buffer_cleanup`: clean up the receive side, then
the transmit side, of every pipe in index order. -/
def ath10k_pci_buffer_cleanup : Dev → List PciPipe → Dev × List PciPipe
  | d, [] => (d, [])
  | d, pipe :: rest =>
    let r := ath10k_pci_rx_pipe_cleanup d pipe
    let t := ath10k_pci_tx_pipe_cleanup r.1 r.2
    let s := ath10k_pci_buffer_cleanup t.1 rest
    (s.1, t.2 :: s.2)

/-! ## Observations on the log -/

/-- The buffers given to `rx_completion`, in call order. -/
def rx_delivered (l : List Event) : List SkBuff :=
  l.filterMap (fun e => match e with
    | Event.rx_completion skb => some skb
    | _ => none)

/-- The buffers given to `tx_completion`, in call order. -/
def tx_delivered (l : List Event) : List SkBuff :=
  l.filterMap (fun e => match e with
    | Event.tx_completion skb => some skb
    | _ => none)

/-- The buffers freed, in order. -/
def freed (l : List Event) : List Nat :=
  l.filterMap (fun e => match e with
    | Event.kfree_skb id => some id
    | _ => none)

/-- The buffers unmapped, in order. -/
def unmapped (l : List Event) : List Nat :=
  l.filterMap (fun e => match e with
    | Event.dma_unmap id => some id
    | _ => none)

/-- The buffers allocated, in order. -/
def allocs (l : List Event) : List Nat :=
  l.filterMap (fun e => match e with
    | Event.m_get2 id => some id
    | _ => none)

/-- The buffers the ring accepted, in order. -/
def posted (l : List Event) : List Nat :=
  l.filterMap (fun e => match e with
    | Event.ce_rx_post id => some id
    | _ => none)

/-- The slots cleared by a cleanup, in order. -/
def cleared (l : List Event) : List Nat :=
  l.filterMap (fun e => match e with
    | Event.ctx_clear i => some i
    | _ => none)

/-- The number of times the retry timer was armed. -/
def timer_arms (l : List Event) : Nat :=
  l.count Event.mod_timer

/-! ## Auxiliary notions used in the statements -/

/-- The environment lets call number `j` of `__ath10k_pci_rx_post_buf` through:
the allocation and the mapping succeed and the ring has no fault. -/
def EnvOk (env : Env) (j : Nat) : Prop :=
  env.m_get2_ok j = true ∧ env.dma_map_ok j = true ∧ env.ce_fault j = 0

instance (env : Env) (j : Nat) : Decidable (EnvOk env j) := by
  unfold EnvOk; infer_instance

/-- The events of `n` successful posts of the buffers `id`, `id + 1`, ... -/
def post_events (id : Nat) : Nat → List Event
  | 0 => []
  | n + 1 => [Event.m_get2 id, Event.dma_map id, Event.ce_rx_post id] ++ post_events (id + 1) n

/-- The buffers `id`, ..., `id + n - 1`, the newest first. -/
def new_ids (id : Nat) : Nat → List Nat
  | 0 => []
  | n + 1 => new_ids (id + 1) n ++ [id]

/-- The slot table after `n` fresh buffers of capacity `buf_sz`, numbered from
`id`, were stored one after the other. -/
def ce_store_many (buf_sz id : Nat) : Nat → List (Option SkBuff) → List (Option SkBuff)
  | 0, tbl => tbl
  | n + 1, tbl => ce_store_many buf_sz (id + 1) n (ce_store ⟨id, 0, buf_sz⟩ tbl)

/-- The occupied slots of a slot table whose first slot has number `i`: slot
number and buffer, in increasing slot order. -/
def occupied_slots : Nat → List (Option SkBuff) → List (Nat × SkBuff)
  | _, [] => []
  | i, none :: rest => occupied_slots (i + 1) rest
  | i, some skb :: rest => (i, skb) :: occupied_slots (i + 1) rest

/-- Every slot of the table is NULL. -/
def slots_null (tbl : List (Option SkBuff)) : Prop := ∀ x ∈ tbl, x = none

instance (tbl : List (Option SkBuff)) : Decidable (slots_null tbl) := by
  unfold slots_null; infer_instance

/-- Every slot of an optional ring is NULL. -/
def ring_null : Option CeRing → Prop
  | none => True
  | some r => slots_null r.per_transfer_context

instance (r : Option CeRing) : Decidable (ring_null r) := by
  cases r <;> unfold ring_null <;> infer_instance

/-- Every slot of the destination ring and of the source ring of a pipe is NULL. -/
def pipe_null (pipe : PciPipe) : Prop :=
  ring_null pipe.ce_hdl.dest_ring ∧ ring_null pipe.ce_hdl.src_ring

instance (pipe : PciPipe) : Decidable (pipe_null pipe) := by
  unfold pipe_null; infer_instance

/-- The buffers referenced by the slots of an optional ring. -/
def ring_bufs : Option CeRing → List SkBuff
  | none => []
  | some r => (occupied_slots 0 r.per_transfer_context).map Prod.snd

/-- The buffers referenced by the ring slots of a pipe set. -/
def set_bufs : List PciPipe → List SkBuff
  | [] => []
  | pipe :: rest =>
    ring_bufs pipe.ce_hdl.dest_ring ++ ring_bufs pipe.ce_hdl.src_ring ++ set_bufs rest

/-- The pipes and rings that the cleanup functions skip hold no buffer: a
pipe with buffer size 0 has only NULL slots, and so has a source ring without
shadow base. -/
def skipped_empty (pipe : PciPipe) : Prop :=
  (pipe.buf_sz = 0 → pipe_null pipe) ∧
  ∀ r, pipe.ce_hdl.src_ring = some r → r.shadow_base = false →
    slots_null r.per_transfer_context

/-- The list `l` without the buffers `ids`, each removed once, in order. -/
def erase_all (l : List Nat) : List Nat → List Nat
  | [] => l
  | id :: rest => erase_all (l.erase id) rest

/-- The events of the first loop of `ath10k_pci_ce_recv_data` for one reported
completion. -/
def recv_events (x : Option SkBuff × Nat) : List Event :=
  match x.1 with
  | none => []
  | some skb =>
    if skb.len + skb.tailroom < x.2 then
      [Event.dma_unmap skb.id, Event.warn, Event.kfree_skb skb.id]
    else [Event.dma_unmap skb.id]

/-- The buffer queued for `rx_completion` for one reported completion: none
when the ring reports more bytes than the buffer can hold. -/
def recv_keep (x : Option SkBuff × Nat) : Option SkBuff :=
  match x.1 with
  | none => none
  | some skb => if x.2 ≤ skb.len + skb.tailroom then some (skb_put skb x.2) else none

/-- The reported completion is within the range of the source's arithmetic:
the capacity `len + tailroom` of the buffer and the byte count fit an
`unsigned int` (they are below 2^32 = 4294967296), and a byte count that the
capacity admits also fits the room left, so that `skb_put` stays inside the
buffer. Every buffer with `len = 0`, as posted by `__ath10k_pci_rx_post_buf`,
meets the last condition. -/
def recv_in_range (x : Option SkBuff × Nat) : Prop :=
  match x.1 with
  | none => True
  | some skb =>
    skb.len + skb.tailroom < 4294967296 ∧ x.2 < 4294967296 ∧
      (x.2 ≤ skb.len + skb.tailroom → x.2 ≤ skb.tailroom)

instance (x : Option SkBuff × Nat) : Decidable (recv_in_range x) := by
  unfold recv_in_range
  cases x.1 <;> infer_instance

/-- The buffer the first loop of `ath10k_pci_ce_recv_data` queues for one
reported completion, with `max_nbytes` and `nbytes` computed in `unsigned int`
arithmetic as in the source: none when `max_nbytes < nbytes`. -/
def recv_keep_u32 (x : Option SkBuff × Nat) : Option SkBuff :=
  match x.1 with
  | none => none
  | some skb =>
    if (skb.len + skb.tailroom) % 4294967296 < x.2 % 4294967296 then none
    else some (skb_put skb x.2)

/-- An event a replenishment may log when the next fresh buffer has number
`c`: no callback, no slot clearing, and only buffers numbered from `c` on. -/
def replenish_event (c : Nat) : Event → Prop
  | Event.m_get2 i => c ≤ i
  | Event.dma_map i => c ≤ i
  | Event.dma_unmap i => c ≤ i
  | Event.kfree_skb i => c ≤ i
  | Event.ce_rx_post i => c ≤ i
  | Event.warn => True
  | Event.mod_timer => True
  | Event.ctx_clear _ => False
  | Event.rx_completion _ => False
  | Event.tx_completion _ => False

/-- The device state after `n` successful posts. -/
def dev_posted (d : Dev) (n : Nat) : Dev :=
  { calls := d.calls + n, next_id := d.next_id + n,
    allocated := new_ids d.next_id n ++ d.allocated,
    mapped := new_ids d.next_id n ++ d.mapped,
    log := d.log ++ post_events d.next_id n }

/-- The pipe with destination ring `r` after `n` successful posts of the
buffers numbered from `id`. -/
def pipe_posted (pipe : PciPipe) (r : CeRing) (id n : Nat) : PciPipe :=
  { pipe with ce_hdl := { pipe.ce_hdl with dest_ring := some { r with
      per_transfer_context := ce_store_many pipe.buf_sz id n r.per_transfer_context } } }

/-- The events of the first loop of `ath10k_pci_ce_recv_data` for a sequence
of reported completions. -/
def recv_log : List (Option SkBuff × Nat) → List Event
  | [] => []
  | x :: rest => recv_events x ++ recv_log rest

/-- The events of `ath10k_pci_tx_pipe_cleanup` for the occupied slots given. -/
def tx_cleanup_log : List (Nat × SkBuff) → List Event
  | [] => []
  | x :: rest => [Event.ctx_clear x.1, Event.tx_completion x.2] ++ tx_cleanup_log rest

/-- The events of `ath10k_pci_rx_pipe_cleanup` for the occupied slots given. -/
def rx_cleanup_log : List (Nat × SkBuff) → List Event
  | [] => []
  | x :: rest =>
    [Event.ctx_clear x.1, Event.dma_unmap x.2.id, Event.kfree_skb x.2.id] ++ rx_cleanup_log rest

/-! ## Example states -/

/-- An environment in which nothing fails. -/
def env_ok : Env := ⟨fun _ => true, fun _ => true, fun _ => 0⟩

/-- An environment in which the allocation of call 2 (the third) fails. -/
def env_third : Env := ⟨fun j => decide (j ≠ 2), fun _ => true, fun _ => 0⟩

/-- An environment in which the mapping of call 0 fails. -/
def env_nomap : Env := ⟨fun _ => true, fun j => decide (j ≠ 0), fun _ => 0⟩

/-- The initial device state. -/
def dev0 : Dev := ⟨0, 0, [], [], []⟩

/-- A receive pipe with an empty destination ring of depth 4 and buffers of
256 bytes. -/
def pipe_rx4 : PciPipe := ⟨1, 256, ⟨1, none, some ⟨[none, none, none, none], false, []⟩⟩⟩

/-- A device state in which four buffers are posted. -/
def dev4 : Dev := ⟨4, 4, [3, 2, 1, 0], [3, 2, 1, 0], []⟩

/-- The receive pipe fully posted, slot 2 completed with 300 bytes and slot 0
with 10 bytes. -/
def pipe_rx4_done : PciPipe :=
  ⟨1, 256, ⟨1, none, some ⟨[some ⟨0, 0, 256⟩, some ⟨1, 0, 256⟩, some ⟨2, 0, 256⟩,
    some ⟨3, 0, 256⟩], false, [(2, 300), (0, 10)]⟩⟩⟩

/-- The receive pipe fully posted, slot 2 completed with 300 bytes. -/
def pipe_rx4_over : PciPipe :=
  ⟨1, 256, ⟨1, none, some ⟨[some ⟨0, 0, 256⟩, some ⟨1, 0, 256⟩, some ⟨2, 0, 256⟩,
    some ⟨3, 0, 256⟩], false, [(2, 300)]⟩⟩⟩

/-- A transmit pipe with two buffers in flight, slot 1 completed, and a
completed slot without transfer context. -/
def pipe_tx : PciPipe :=
  ⟨3, 2048, ⟨3, some ⟨[some ⟨7, 100, 0⟩, some ⟨8, 60, 0⟩, none], true, [(2, 0), (1, 60)]⟩, none⟩⟩

/-- The receive pipe fully posted, with the slots 2, 0, 3 and 1 completed in
this order, slot 0 with more bytes than its buffer holds. -/
def pipe_rx4_fifo : PciPipe :=
  ⟨1, 256, ⟨1, none, some ⟨[some ⟨0, 0, 256⟩, some ⟨1, 0, 256⟩, some ⟨2, 0, 256⟩,
    some ⟨3, 0, 256⟩], false, [(2, 10), (0, 300), (3, 20), (1, 5)]⟩⟩⟩

/-- A transmit pipe with three buffers in flight and a slot without transfer
context, the slots 3, 2, 0 and 1 completed in this order. -/
def pipe_tx_fifo : PciPipe :=
  ⟨3, 2048, ⟨3, some ⟨[some ⟨7, 100, 0⟩, some ⟨8, 60, 0⟩, none, some ⟨9, 30, 0⟩], true,
    [(3, 30), (2, 0), (0, 100), (1, 60)]⟩, none⟩⟩

/-- A pipe with buffer size 0 whose rings hold a buffer each. -/
def pipe_zero : PciPipe :=
  ⟨7, 0, ⟨7, some ⟨[some ⟨5, 16, 0⟩], true, []⟩, some ⟨[some ⟨6, 0, 16⟩, none], false, []⟩⟩⟩

/-- A pipe with receive and transmit buffers outstanding. -/
def pipe_both : PciPipe :=
  ⟨2, 512, ⟨2, some ⟨[none, some ⟨11, 40, 0⟩, some ⟨12, 50, 0⟩], true, []⟩,
    some ⟨[some ⟨13, 0, 512⟩, none, some ⟨14, 0, 512⟩], false, []⟩⟩⟩

/-! ## The slot table -/

theorem ce_free_add_occupied (tbl : List (Option SkBuff)) :
    ce_free_slots tbl + ce_occupied tbl = tbl.length := by
  induction tbl with
  | nil => rfl
  | cons x rest ih => cases x <;> simp [ce_free_slots, ce_occupied] <;> omega

theorem ce_store_length (skb : SkBuff) (tbl : List (Option SkBuff)) :
    (ce_store skb tbl).length = tbl.length := by
  induction tbl with
  | nil => rfl
  | cons x rest ih => cases x <;> simp [ce_store, ih]

theorem ce_store_free (skb : SkBuff) (tbl : List (Option SkBuff)) :
    ce_free_slots (ce_store skb tbl) = ce_free_slots tbl - 1 := by
  induction tbl with
  | nil => rfl
  | cons x rest ih => cases x <;> simp [ce_store, ce_free_slots, ih]

theorem ce_store_eq_set (skb : SkBuff) (tbl : List (Option SkBuff))
    (h : ce_free_slots tbl ≠ 0) :
    ∃ i, tbl[i]? = some none ∧ ce_store skb tbl = tbl.set i (some skb) := by
  induction tbl with
  | nil => simp [ce_free_slots] at h
  | cons x rest ih =>
    cases x with
    | none => exact ⟨0, by simp, by simp [ce_store]⟩
    | some y =>
      simp only [ce_free_slots] at h
      obtain ⟨i, h1, h2⟩ := ih h
      exact ⟨i + 1, by simpa using h1, by simp [ce_store, h2]⟩

theorem ce_post_fail (fault : Int) (ce : CePipe) (skb : SkBuff)
    (h : (__ath10k_ce_rx_post_buf fault ce skb).1 ≠ 0) :
    (__ath10k_ce_rx_post_buf fault ce skb).2 = ce := by
  unfold __ath10k_ce_rx_post_buf at h ⊢
  cases hr : ce.dest_ring with
  | none => simp
  | some r =>
    simp only [hr] at h ⊢
    by_cases hf : fault ≠ 0
    · simp [hf]
    · by_cases hz : ce_free_slots r.per_transfer_context = 0
      · simp [hf, hz]
      · simp [hf, hz] at h

theorem ce_post_ok (fault : Int) (ce : CePipe) (skb : SkBuff)
    (h : (__ath10k_ce_rx_post_buf fault ce skb).1 = 0) :
    ∃ r, ce.dest_ring = some r ∧ fault = 0 ∧ ce_free_slots r.per_transfer_context ≠ 0 ∧
      (__ath10k_ce_rx_post_buf fault ce skb).2 =
        { ce with dest_ring := some { r with
            per_transfer_context := ce_store skb r.per_transfer_context } } := by
  unfold __ath10k_ce_rx_post_buf at h ⊢
  cases hr : ce.dest_ring with
  | none => simp [hr, EIO] at h
  | some r =>
    simp only [hr] at h ⊢
    by_cases hf : fault ≠ 0
    · simp [hf] at h
    · by_cases hz : ce_free_slots r.per_transfer_context = 0
      · simp [hf, hz, ENOSPC] at h
      · refine ⟨r, rfl, by simpa using hf, hz, ?_⟩
        simp [hf, hz]

theorem ce_post_accepts (ce : CePipe) (skb : SkBuff) (r : CeRing)
    (hr : ce.dest_ring = some r) (hz : ce_free_slots r.per_transfer_context ≠ 0) :
    __ath10k_ce_rx_post_buf 0 ce skb =
      (0, { ce with dest_ring := some { r with
            per_transfer_context := ce_store skb r.per_transfer_context } }) := by
  simp [__ath10k_ce_rx_post_buf, hr, hz]

/-- The result of `__ath10k_pci_rx_post_buf` when the allocation fails. -/
theorem rx_post_buf_nomem (env : Env) (d : Dev) (pipe : PciPipe)
    (h : env.m_get2_ok d.calls = false) :
    __ath10k_pci_rx_post_buf env d pipe = (-ENOMEM, { d with calls := d.calls + 1 }, pipe) := by
  simp [__ath10k_pci_rx_post_buf, h]

/-- The result of `__ath10k_pci_rx_post_buf` when the mapping fails. -/
theorem rx_post_buf_mapfail (env : Env) (d : Dev) (pipe : PciPipe)
    (h1 : env.m_get2_ok d.calls = true) (h2 : env.dma_map_ok d.calls = false) :
    __ath10k_pci_rx_post_buf env d pipe =
      (- EIO,
       { d with calls := d.calls + 1, next_id := d.next_id + 1,
                log := d.log ++ [Event.m_get2 d.next_id, Event.warn,
                                 Event.kfree_skb d.next_id] }, pipe) := by
  simp [__ath10k_pci_rx_post_buf, h1, h2]

/-- The result of `__ath10k_pci_rx_post_buf` when the ring rejects the buffer. -/
theorem rx_post_buf_reject (env : Env) (d : Dev) (pipe : PciPipe)
    (h1 : env.m_get2_ok d.calls = true) (h2 : env.dma_map_ok d.calls = true)
    (h3 : (__ath10k_ce_rx_post_buf (env.ce_fault d.calls) pipe.ce_hdl
            ⟨d.next_id, 0, pipe.buf_sz⟩).1 ≠ 0) :
    __ath10k_pci_rx_post_buf env d pipe =
      ((__ath10k_ce_rx_post_buf (env.ce_fault d.calls) pipe.ce_hdl
            ⟨d.next_id, 0, pipe.buf_sz⟩).1,
       { d with calls := d.calls + 1, next_id := d.next_id + 1,
                log := d.log ++ [Event.m_get2 d.next_id, Event.dma_map d.next_id, Event.warn,
                                 Event.dma_unmap d.next_id, Event.kfree_skb d.next_id] },
       pipe) := by
  have h4 := ce_post_fail _ _ _ h3
  simp [__ath10k_pci_rx_post_buf, h1, h2, h3, h4]

/-- The result of `__ath10k_pci_rx_post_buf` when the ring accepts the buffer. -/
theorem rx_post_buf_accept (env : Env) (d : Dev) (pipe : PciPipe)
    (h1 : env.m_get2_ok d.calls = true) (h2 : env.dma_map_ok d.calls = true)
    (h3 : (__ath10k_ce_rx_post_buf (env.ce_fault d.calls) pipe.ce_hdl
            ⟨d.next_id, 0, pipe.buf_sz⟩).1 = 0) :
    __ath10k_pci_rx_post_buf env d pipe =
      (0,
       { calls := d.calls + 1, next_id := d.next_id + 1,
         allocated := d.next_id :: d.allocated, mapped := d.next_id :: d.mapped,
         log := d.log ++ [Event.m_get2 d.next_id, Event.dma_map d.next_id,
                          Event.ce_rx_post d.next_id] },
       { pipe with ce_hdl := (__ath10k_ce_rx_post_buf (env.ce_fault d.calls) pipe.ce_hdl
            ⟨d.next_id, 0, pipe.buf_sz⟩).2 }) := by
  simp [__ath10k_pci_rx_post_buf, h1, h2, h3]

theorem ENOMEM_ne : ENOMEM ≠ 0 := by decide

theorem EIO_ne : EIO ≠ 0 := by decide

/-- C6. Failure atomicity of `__ath10k_pci_rx_post_buf`: it returns 0 exactly
when the allocation, the mapping and the ring post all succeed, and then the
fresh buffer is allocated, mapped and stored in one slot that was NULL, the
other slots being unchanged; when the allocation fails it returns `-ENOMEM`
and changes nothing but the call count; when the mapping fails it frees the
fresh buffer and returns `-EIO`; when the ring rejects the buffer it unmaps
and frees it and returns the code of the ring; and whenever it fails the
allocated buffers, the mapped buffers and the pipe with its ring slots are as
before the call. -/
theorem rx_post_buf_atomic (env : Env) (d : Dev) (pipe : PciPipe) :
    (((__ath10k_pci_rx_post_buf env d pipe).1 = 0) ↔
      (env.m_get2_ok d.calls = true ∧ env.dma_map_ok d.calls = true ∧
        (__ath10k_ce_rx_post_buf (env.ce_fault d.calls) pipe.ce_hdl
          ⟨d.next_id, 0, pipe.buf_sz⟩).1 = 0)) ∧
    ((__ath10k_pci_rx_post_buf env d pipe).1 = 0 →
      (__ath10k_pci_rx_post_buf env d pipe).2.1.allocated = d.next_id :: d.allocated ∧
      (__ath10k_pci_rx_post_buf env d pipe).2.1.mapped = d.next_id :: d.mapped ∧
      ∃ r i, pipe.ce_hdl.dest_ring = some r ∧ r.per_transfer_context[i]? = some none ∧
        (__ath10k_pci_rx_post_buf env d pipe).2.2 =
          { pipe with ce_hdl := { pipe.ce_hdl with dest_ring := some { r with
              per_transfer_context :=
                r.per_transfer_context.set i (some ⟨d.next_id, 0, pipe.buf_sz⟩) } } }) ∧
    (env.m_get2_ok d.calls = false →
      __ath10k_pci_rx_post_buf env d pipe = (-ENOMEM, { d with calls := d.calls + 1 }, pipe)) ∧
    (env.m_get2_ok d.calls = true → env.dma_map_ok d.calls = false →
      (__ath10k_pci_rx_post_buf env d pipe).1 = - EIO ∧
      (__ath10k_pci_rx_post_buf env d pipe).2.1.log =
        d.log ++ [Event.m_get2 d.next_id, Event.warn, Event.kfree_skb d.next_id]) ∧
    (env.m_get2_ok d.calls = true → env.dma_map_ok d.calls = true →
      (__ath10k_ce_rx_post_buf (env.ce_fault d.calls) pipe.ce_hdl
          ⟨d.next_id, 0, pipe.buf_sz⟩).1 ≠ 0 →
      (__ath10k_pci_rx_post_buf env d pipe).1 =
        (__ath10k_ce_rx_post_buf (env.ce_fault d.calls) pipe.ce_hdl
          ⟨d.next_id, 0, pipe.buf_sz⟩).1 ∧
      (__ath10k_pci_rx_post_buf env d pipe).2.1.log =
        d.log ++ [Event.m_get2 d.next_id, Event.dma_map d.next_id, Event.warn,
                  Event.dma_unmap d.next_id, Event.kfree_skb d.next_id]) ∧
    ((__ath10k_pci_rx_post_buf env d pipe).1 ≠ 0 →
      (__ath10k_pci_rx_post_buf env d pipe).2.1.allocated = d.allocated ∧
      (__ath10k_pci_rx_post_buf env d pipe).2.1.mapped = d.mapped ∧
      (__ath10k_pci_rx_post_buf env d pipe).2.2 = pipe) := by
  cases h1 : env.m_get2_ok d.calls with
  | false =>
    rw [rx_post_buf_nomem env d pipe h1]
    simp [ENOMEM_ne]
  | true =>
    cases h2 : env.dma_map_ok d.calls with
    | false =>
      rw [rx_post_buf_mapfail env d pipe h1 h2]
      simp [EIO_ne]
    | true =>
      by_cases h3 : (__ath10k_ce_rx_post_buf (env.ce_fault d.calls) pipe.ce_hdl
          ⟨d.next_id, 0, pipe.buf_sz⟩).1 = 0
      · rw [rx_post_buf_accept env d pipe h1 h2 h3]
        obtain ⟨r, hr, _, hz, he⟩ := ce_post_ok _ _ _ h3
        obtain ⟨i, hi, hs⟩ := ce_store_eq_set ⟨d.next_id, 0, pipe.buf_sz⟩ _ hz
        simp only [h3, true_and, and_true, ne_eq, not_true_eq_false, false_implies,
          true_implies, Bool.true_eq_false, and_self]
        refine ⟨r, i, hr, hi, ?_⟩
        rw [he, hs]
      · rw [rx_post_buf_reject env d pipe h1 h2 h3]
        simp [h3]

/-! ## The log observations -/

@[simp] theorem rx_delivered_append (a b : List Event) :
    rx_delivered (a ++ b) = rx_delivered a ++ rx_delivered b := by
  simp [rx_delivered]

@[simp] theorem tx_delivered_append (a b : List Event) :
    tx_delivered (a ++ b) = tx_delivered a ++ tx_delivered b := by
  simp [tx_delivered]

@[simp] theorem freed_append (a b : List Event) : freed (a ++ b) = freed a ++ freed b := by
  simp [freed]

@[simp] theorem unmapped_append (a b : List Event) :
    unmapped (a ++ b) = unmapped a ++ unmapped b := by
  simp [unmapped]

@[simp] theorem allocs_append (a b : List Event) : allocs (a ++ b) = allocs a ++ allocs b := by
  simp [allocs]

@[simp] theorem posted_append (a b : List Event) : posted (a ++ b) = posted a ++ posted b := by
  simp [posted]

@[simp] theorem cleared_append (a b : List Event) :
    cleared (a ++ b) = cleared a ++ cleared b := by
  simp [cleared]

@[simp] theorem timer_arms_append (a b : List Event) :
    timer_arms (a ++ b) = timer_arms a + timer_arms b := by
  simp [timer_arms]

theorem post_events_posted (id n : Nat) : posted (post_events id n) = List.range' id n := by
  induction n generalizing id with
  | zero => rfl
  | succ n ih =>
    simp only [post_events, posted_append, ih, List.range'_succ]
    rfl

theorem post_events_quiet (id n : Nat) :
    rx_delivered (post_events id n) = [] ∧ tx_delivered (post_events id n) = [] ∧
    freed (post_events id n) = [] ∧ unmapped (post_events id n) = [] ∧
    cleared (post_events id n) = [] ∧ timer_arms (post_events id n) = 0 := by
  induction n generalizing id with
  | zero => simp [post_events, rx_delivered, tx_delivered, freed, unmapped, cleared, timer_arms]
  | succ n ih =>
    obtain ⟨h1, h2, h3, h4, h5, h6⟩ := ih (id + 1)
    simp only [post_events, rx_delivered_append, tx_delivered_append, freed_append,
      unmapped_append, cleared_append, timer_arms_append, h1, h2, h3, h4, h5, h6]
    simp [rx_delivered, tx_delivered, freed, unmapped, cleared, timer_arms]

theorem ce_store_many_free (buf_sz id n : Nat) (tbl : List (Option SkBuff)) :
    ce_free_slots (ce_store_many buf_sz id n tbl) = ce_free_slots tbl - n := by
  induction n generalizing id tbl with
  | zero => rfl
  | succ n ih =>
    simp only [ce_store_many, ih, ce_store_free]
    omega

theorem ce_store_many_length (buf_sz id n : Nat) (tbl : List (Option SkBuff)) :
    (ce_store_many buf_sz id n tbl).length = tbl.length := by
  induction n generalizing id tbl with
  | zero => rfl
  | succ n ih => simp only [ce_store_many, ih, ce_store_length]

theorem ce_store_many_occupied (buf_sz id n : Nat) (tbl : List (Option SkBuff))
    (h : n ≤ ce_free_slots tbl) :
    ce_occupied (ce_store_many buf_sz id n tbl) = ce_occupied tbl + n := by
  have h1 := ce_free_add_occupied (ce_store_many buf_sz id n tbl)
  have h2 := ce_free_add_occupied tbl
  rw [ce_store_many_free, ce_store_many_length] at h1
  omega

/-! ## The replenish loop -/

/-- A call of `__ath10k_pci_rx_post_buf` that the environment lets through, on
a ring with a free slot, posts the buffer. -/
theorem rx_post_buf_success (env : Env) (d : Dev) (pipe : PciPipe) (r : CeRing)
    (hr : pipe.ce_hdl.dest_ring = some r) (hz : ce_free_slots r.per_transfer_context ≠ 0)
    (he : EnvOk env d.calls) :
    __ath10k_pci_rx_post_buf env d pipe =
      (0,
       { calls := d.calls + 1, next_id := d.next_id + 1,
         allocated := d.next_id :: d.allocated, mapped := d.next_id :: d.mapped,
         log := d.log ++ post_events d.next_id 1 },
       { pipe with ce_hdl := { pipe.ce_hdl with dest_ring := some { r with
           per_transfer_context := ce_store ⟨d.next_id, 0, pipe.buf_sz⟩ r.per_transfer_context } } }) := by
  obtain ⟨h1, h2, h3⟩ := he
  have h4 := ce_post_accepts pipe.ce_hdl ⟨d.next_id, 0, pipe.buf_sz⟩ r hr hz
  rw [rx_post_buf_accept env d pipe h1 h2 (by rw [h3, h4]), h3, h4]
  rfl

theorem fault_rejected (fault : Int) (ce : CePipe) (skb : SkBuff) (h : fault ≠ 0) :
    (__ath10k_ce_rx_post_buf fault ce skb).1 ≠ 0 := by
  unfold __ath10k_ce_rx_post_buf
  cases ce.dest_ring with
  | none => simp [ EIO]
  | some r => simp [h]

/-- A call of `__ath10k_pci_rx_post_buf` that the environment does not let
through fails. -/
theorem rx_post_buf_envfail (env : Env) (d : Dev) (pipe : PciPipe) (he : ¬ EnvOk env d.calls) :
    (__ath10k_pci_rx_post_buf env d pipe).1 ≠ 0 := by
  cases h1 : env.m_get2_ok d.calls with
  | false => rw [rx_post_buf_nomem env d pipe h1]; simp [ENOMEM_ne]
  | true =>
    cases h2 : env.dma_map_ok d.calls with
    | false => rw [rx_post_buf_mapfail env d pipe h1 h2]; simp [EIO_ne]
    | true =>
      have h3 : env.ce_fault d.calls ≠ 0 := fun h => he ⟨h1, h2, h⟩
      have h4 := fault_rejected _ pipe.ce_hdl ⟨d.next_id, 0, pipe.buf_sz⟩ h3
      rw [rx_post_buf_reject env d pipe h1 h2 h4]
      exact h4

/-- What a failing call of `__ath10k_pci_rx_post_buf` leaves behind. -/
theorem rx_post_buf_failure (env : Env) (d : Dev) (pipe : PciPipe)
    (h : (__ath10k_pci_rx_post_buf env d pipe).1 ≠ 0) :
    (__ath10k_pci_rx_post_buf env d pipe).2.2 = pipe ∧
    (__ath10k_pci_rx_post_buf env d pipe).2.1.allocated = d.allocated ∧
    (__ath10k_pci_rx_post_buf env d pipe).2.1.mapped = d.mapped ∧
    (__ath10k_pci_rx_post_buf env d pipe).2.1.calls = d.calls + 1 ∧
    d.next_id ≤ (__ath10k_pci_rx_post_buf env d pipe).2.1.next_id ∧
    ∃ ev, (__ath10k_pci_rx_post_buf env d pipe).2.1.log = d.log ++ ev ∧
      posted ev = [] ∧ timer_arms ev = 0 ∧ ∀ e ∈ ev, replenish_event d.next_id e := by
  cases h1 : env.m_get2_ok d.calls with
  | false =>
    rw [rx_post_buf_nomem env d pipe h1]
    exact ⟨rfl, rfl, rfl, rfl, le_refl _, [], by simp, rfl, rfl, by simp⟩
  | true =>
    cases h2 : env.dma_map_ok d.calls with
    | false =>
      rw [rx_post_buf_mapfail env d pipe h1 h2]
      refine ⟨rfl, rfl, rfl, rfl, by simp, _, rfl, rfl, rfl, ?_⟩
      simp [replenish_event]
    | true =>
      by_cases h3 : (__ath10k_ce_rx_post_buf (env.ce_fault d.calls) pipe.ce_hdl
          ⟨d.next_id, 0, pipe.buf_sz⟩).1 = 0
      · rw [rx_post_buf_accept env d pipe h1 h2 h3] at h
        exact absurd rfl h
      · rw [rx_post_buf_reject env d pipe h1 h2 h3]
        refine ⟨rfl, rfl, rfl, rfl, by simp, _, rfl, rfl, rfl, ?_⟩
        simp [replenish_event]

/-- What any call of `__ath10k_pci_rx_post_buf` may do. -/
theorem rx_post_buf_frame (env : Env) (d : Dev) (pipe : PciPipe) :
    (__ath10k_pci_rx_post_buf env d pipe).2.2.buf_sz = pipe.buf_sz ∧
    d.calls ≤ (__ath10k_pci_rx_post_buf env d pipe).2.1.calls ∧
    d.next_id ≤ (__ath10k_pci_rx_post_buf env d pipe).2.1.next_id ∧
    ∃ ev, (__ath10k_pci_rx_post_buf env d pipe).2.1.log = d.log ++ ev ∧
      timer_arms ev = 0 ∧ ∀ e ∈ ev, replenish_event d.next_id e := by
  by_cases h : (__ath10k_pci_rx_post_buf env d pipe).1 = 0
  · cases h1 : env.m_get2_ok d.calls with
    | false => rw [rx_post_buf_nomem env d pipe h1] at h; exact absurd h (by simp [ENOMEM_ne])
    | true =>
      cases h2 : env.dma_map_ok d.calls with
      | false =>
        rw [rx_post_buf_mapfail env d pipe h1 h2] at h; exact absurd h (by simp [EIO_ne])
      | true =>
        by_cases h3 : (__ath10k_ce_rx_post_buf (env.ce_fault d.calls) pipe.ce_hdl
            ⟨d.next_id, 0, pipe.buf_sz⟩).1 = 0
        · rw [rx_post_buf_accept env d pipe h1 h2 h3]
          refine ⟨rfl, by simp, by simp, _, rfl, rfl, ?_⟩
          simp [replenish_event]
        · rw [rx_post_buf_reject env d pipe h1 h2 h3] at h
          exact absurd h h3
  · obtain ⟨h1, _, _, h4, h5, ev, h6, _, h8, h9⟩ := rx_post_buf_failure env d pipe h
    exact ⟨by rw [h1], by omega, h5, ev, h6, h8, h9⟩

theorem replenish_event_mono (c1 c2 : Nat) (h : c1 ≤ c2) (e : Event)
    (he : replenish_event c2 e) : replenish_event c1 e := by
  cases e <;> simp only [replenish_event] at he ⊢ <;> omega

/-- What the replenish loop may do, whatever the environment. -/
theorem rx_post_loop_frame (env : Env) (n : Nat) (d : Dev) (pipe : PciPipe) :
    (rx_post_loop env n d pipe).2.buf_sz = pipe.buf_sz ∧
    d.calls ≤ (rx_post_loop env n d pipe).1.calls ∧
    d.next_id ≤ (rx_post_loop env n d pipe).1.next_id ∧
    ∃ ev, (rx_post_loop env n d pipe).1.log = d.log ++ ev ∧
      ∀ e ∈ ev, replenish_event d.next_id e := by
  induction n generalizing d pipe with
  | zero => exact ⟨rfl, le_refl _, le_refl _, [], by simp [rx_post_loop], by simp⟩
  | succ n ih =>
    obtain ⟨h1, h2, h3, ev, h4, _, h6⟩ := rx_post_buf_frame env d pipe
    by_cases h : (__ath10k_pci_rx_post_buf env d pipe).1 = 0
    · obtain ⟨i1, i2, i3, ev2, i4, i5⟩ :=
        ih (__ath10k_pci_rx_post_buf env d pipe).2.1 (__ath10k_pci_rx_post_buf env d pipe).2.2
      simp only [rx_post_loop, h, ne_eq, not_true_eq_false, if_false]
      refine ⟨by rw [i1, h1], by omega, by omega, ev ++ ev2, by rw [i4, h4, List.append_assoc], ?_⟩
      intro e he
      rcases List.mem_append.1 he with he | he
      · exact h6 e he
      · exact replenish_event_mono _ _ h3 e (i5 e he)
    · simp only [rx_post_loop, ne_eq, h, not_false_eq_true, if_true]
      refine ⟨h1, h2, h3, ev ++ [Event.warn, Event.mod_timer], by rw [h4, List.append_assoc], ?_⟩
      intro e he
      rcases List.mem_append.1 he with he | he
      · exact h6 e he
      · simp at he
        rcases he with he | he <;> rw [he] <;> trivial

/-- The replenish loop when the environment lets all `n` calls through: it
posts `n` buffers. -/
theorem rx_post_loop_ok (env : Env) (n : Nat) (d : Dev) (pipe : PciPipe) (r : CeRing)
    (hr : pipe.ce_hdl.dest_ring = some r) (hn : n ≤ ce_free_slots r.per_transfer_context)
    (he : ∀ j, d.calls ≤ j → j < d.calls + n → EnvOk env j) :
    rx_post_loop env n d pipe = (dev_posted d n, pipe_posted pipe r d.next_id n) := by
  induction n generalizing d pipe r with
  | zero =>
    obtain ⟨pn, bs, ⟨id, sr, dr⟩⟩ := pipe
    simp only at hr
    subst hr
    simp [rx_post_loop, dev_posted, pipe_posted, post_events, new_ids, ce_store_many]
  | succ n ih =>
    have hz : ce_free_slots r.per_transfer_context ≠ 0 := by omega
    have e0 : EnvOk env d.calls := he _ (le_refl _) (by omega)
    have hs := rx_post_buf_success env d pipe r hr hz e0
    simp only [rx_post_loop, hs, ne_eq, not_true_eq_false, if_false]
    have hi := ih
      { calls := d.calls + 1, next_id := d.next_id + 1,
        allocated := d.next_id :: d.allocated, mapped := d.next_id :: d.mapped,
        log := d.log ++ post_events d.next_id 1 }
      { pipe with ce_hdl := { pipe.ce_hdl with dest_ring := some { r with
           per_transfer_context := ce_store ⟨d.next_id, 0, pipe.buf_sz⟩ r.per_transfer_context } } }
      { r with
           per_transfer_context := ce_store ⟨d.next_id, 0, pipe.buf_sz⟩ r.per_transfer_context }
      rfl (by simp only [ce_store_free]; omega)
      (by intro j h1 h2; simp only at h1 h2; exact he j (by omega) (by omega))
    rw [hi]
    simp only [dev_posted, pipe_posted, post_events, new_ids, ce_store_many, List.append_assoc,
      List.singleton_append, List.cons_append, List.nil_append, Prod.mk.injEq]
    constructor
    · simp only [Dev.mk.injEq]
      refine ⟨by omega, by omega, trivial, trivial, trivial⟩
    · trivial

theorem dev_posted_zero (d : Dev) : dev_posted d 0 = d := by
  simp [dev_posted, post_events, new_ids]

theorem pipe_posted_zero (pipe : PciPipe) (r : CeRing) (id : Nat)
    (hr : pipe.ce_hdl.dest_ring = some r) : pipe_posted pipe r id 0 = pipe := by
  obtain ⟨pn, bs, ⟨i, sr, dr⟩⟩ := pipe
  simp only at hr
  subst hr
  simp [pipe_posted, ce_store_many]

/-- The replenish loop after `k` calls that the environment lets through. -/
theorem rx_post_loop_split (env : Env) (k m : Nat) (d : Dev) (pipe : PciPipe) (r : CeRing)
    (hr : pipe.ce_hdl.dest_ring = some r) (hk : k ≤ ce_free_slots r.per_transfer_context)
    (he : ∀ j, d.calls ≤ j → j < d.calls + k → EnvOk env j) :
    rx_post_loop env (k + m) d pipe =
      rx_post_loop env m (dev_posted d k) (pipe_posted pipe r d.next_id k) := by
  induction k generalizing d pipe r with
  | zero => rw [dev_posted_zero, pipe_posted_zero pipe r _ hr, Nat.zero_add]
  | succ k ih =>
    have hz : ce_free_slots r.per_transfer_context ≠ 0 := by omega
    have e0 : EnvOk env d.calls := he _ (le_refl _) (by omega)
    have hs := rx_post_buf_success env d pipe r hr hz e0
    have hkm : k + 1 + m = (k + m) + 1 := by omega
    rw [hkm]
    simp only [rx_post_loop, hs, ne_eq, not_true_eq_false, if_false]
    have hi := ih
      { calls := d.calls + 1, next_id := d.next_id + 1,
        allocated := d.next_id :: d.allocated, mapped := d.next_id :: d.mapped,
        log := d.log ++ post_events d.next_id 1 }
      { pipe with ce_hdl := { pipe.ce_hdl with dest_ring := some { r with
           per_transfer_context := ce_store ⟨d.next_id, 0, pipe.buf_sz⟩ r.per_transfer_context } } }
      { r with
           per_transfer_context := ce_store ⟨d.next_id, 0, pipe.buf_sz⟩ r.per_transfer_context }
      rfl (by simp only [ce_store_free]; omega)
      (by intro j h1 h2; simp only at h1 h2; exact he j (by omega) (by omega))
    rw [hi]
    congr 1
    simp only [dev_posted, post_events, new_ids, List.append_assoc,
      List.singleton_append, List.cons_append, List.nil_append, Dev.mk.injEq]
    refine ⟨by omega, by omega, trivial, trivial, trivial⟩

/-- The replenish loop when call `k + 1` is the first the environment does
not let through: `k` buffers are posted, the failing call changes neither the
buffers nor the ring, and the timer is armed. -/
theorem rx_post_loop_fail (env : Env) (n k : Nat) (d : Dev) (pipe : PciPipe) (r : CeRing)
    (hr : pipe.ce_hdl.dest_ring = some r) (hkn : k < n)
    (hk : k ≤ ce_free_slots r.per_transfer_context)
    (he : ∀ j, d.calls ≤ j → j < d.calls + k → EnvOk env j)
    (hf : ¬ EnvOk env (d.calls + k)) :
    (rx_post_loop env n d pipe).2 = pipe_posted pipe r d.next_id k ∧
    (rx_post_loop env n d pipe).1.calls = d.calls + k + 1 ∧
    (rx_post_loop env n d pipe).1.allocated = new_ids d.next_id k ++ d.allocated ∧
    (rx_post_loop env n d pipe).1.mapped = new_ids d.next_id k ++ d.mapped ∧
    d.next_id + k ≤ (rx_post_loop env n d pipe).1.next_id ∧
    ∃ ev, (rx_post_loop env n d pipe).1.log =
        d.log ++ post_events d.next_id k ++ ev ++ [Event.warn, Event.mod_timer] ∧
      posted ev = [] ∧ timer_arms ev = 0 ∧ ∀ e ∈ ev, replenish_event (d.next_id + k) e := by
  obtain ⟨m, rfl⟩ : ∃ m, n = k + (m + 1) := ⟨n - k - 1, by omega⟩
  rw [rx_post_loop_split env k (m + 1) d pipe r hr hk he]
  have hfail := rx_post_buf_envfail env (dev_posted d k) (pipe_posted pipe r d.next_id k) hf
  obtain ⟨h1, h2, h3, h4, h5, ev, h6, h7, h8, h9⟩ :=
    rx_post_buf_failure env (dev_posted d k) (pipe_posted pipe r d.next_id k) hfail
  simp only [rx_post_loop, ne_eq, hfail, not_false_eq_true, if_true]
  refine ⟨h1, h4, h2, h3, h5, ev, ?_, h7, h8, h9⟩
  rw [h6]
  simp [dev_posted]

theorem pipe_posted_free (pipe : PciPipe) (r : CeRing) (id n : Nat) :
    __ath10k_ce_rx_num_free_bufs (pipe_posted pipe r id n).ce_hdl =
      ce_free_slots r.per_transfer_context - n := by
  simp [__ath10k_ce_rx_num_free_bufs, pipe_posted, ce_store_many_free]

/-- C8. Zero-size pipes are pass-through: when `buf_sz` is 0, whatever the
rings hold and whatever the environment, `__ath10k_pci_rx_post_pipe`,
`ath10k_pci_rx_pipe_cleanup` and `ath10k_pci_tx_pipe_cleanup` leave the device
state (buffers, log, call count) and the pipe unchanged: no allocation, no
post, no timer, no slot cleared, no buffer unmapped or freed, no callback. -/
theorem zero_size_pipe_passthrough (env : Env) (d : Dev) (pipe : PciPipe)
    (h : pipe.buf_sz = 0) :
    __ath10k_pci_rx_post_pipe env d pipe = (d, pipe) ∧
    ath10k_pci_rx_pipe_cleanup d pipe = (d, pipe) ∧
    ath10k_pci_tx_pipe_cleanup d pipe = (d, pipe) := by
  refine ⟨?_, ?_, ?_⟩
  · simp [__ath10k_pci_rx_post_pipe, h]
  · unfold ath10k_pci_rx_pipe_cleanup
    cases pipe.ce_hdl.dest_ring <;> simp [h]
  · unfold ath10k_pci_tx_pipe_cleanup
    cases pipe.ce_hdl.src_ring <;> simp [h]

theorem zero_size_pipe_passthrough_witness :
    pipe_zero.buf_sz = 0 ∧
    (__ath10k_pci_rx_post_pipe env_third dev4 pipe_zero = (dev4, pipe_zero) ∧
     ath10k_pci_rx_pipe_cleanup dev4 pipe_zero = (dev4, pipe_zero) ∧
     ath10k_pci_tx_pipe_cleanup dev4 pipe_zero = (dev4, pipe_zero)) :=
  ⟨rfl, zero_size_pipe_passthrough env_third dev4 pipe_zero rfl⟩

/-- C4. Full replenishment: for a pipe with `buf_sz > 0` and a destination
ring with `n` free slots, if the environment lets the `n` calls of
`__ath10k_pci_rx_post_buf` through, then `__ath10k_pci_rx_post_pipe` makes
exactly `n` calls, posts exactly the `n` fresh buffers, which become allocated,
mapped and owned by the ring, does not arm the timer, and leaves the ring with
0 free slots. -/
theorem rx_post_pipe_fills_ring (env : Env) (d : Dev) (pipe : PciPipe) (r : CeRing)
    (hb : pipe.buf_sz ≠ 0) (hr : pipe.ce_hdl.dest_ring = some r)
    (he : ∀ j, d.calls ≤ j → j < d.calls + __ath10k_ce_rx_num_free_bufs pipe.ce_hdl →
      EnvOk env j) :
    (__ath10k_pci_rx_post_pipe env d pipe).1.calls =
      d.calls + __ath10k_ce_rx_num_free_bufs pipe.ce_hdl ∧
    posted (__ath10k_pci_rx_post_pipe env d pipe).1.log =
      posted d.log ++ List.range' d.next_id (__ath10k_ce_rx_num_free_bufs pipe.ce_hdl) ∧
    (__ath10k_pci_rx_post_pipe env d pipe).1.allocated =
      new_ids d.next_id (__ath10k_ce_rx_num_free_bufs pipe.ce_hdl) ++ d.allocated ∧
    (__ath10k_pci_rx_post_pipe env d pipe).1.mapped =
      new_ids d.next_id (__ath10k_ce_rx_num_free_bufs pipe.ce_hdl) ++ d.mapped ∧
    timer_arms (__ath10k_pci_rx_post_pipe env d pipe).1.log = timer_arms d.log ∧
    __ath10k_ce_rx_num_free_bufs (__ath10k_pci_rx_post_pipe env d pipe).2.ce_hdl = 0 ∧
    ∃ r1, (__ath10k_pci_rx_post_pipe env d pipe).2.ce_hdl.dest_ring = some r1 ∧
      ce_occupied r1.per_transfer_context =
        ce_occupied r.per_transfer_context + __ath10k_ce_rx_num_free_bufs pipe.ce_hdl := by
  have hn : __ath10k_ce_rx_num_free_bufs pipe.ce_hdl = ce_free_slots r.per_transfer_context := by
    simp [__ath10k_ce_rx_num_free_bufs, hr]
  rw [hn] at he ⊢
  have hl := rx_post_loop_ok env (ce_free_slots r.per_transfer_context) d pipe r hr (le_refl _) he
  have hp : __ath10k_pci_rx_post_pipe env d pipe =
      (dev_posted d (ce_free_slots r.per_transfer_context),
       pipe_posted pipe r d.next_id (ce_free_slots r.per_transfer_context)) := by
    simp [__ath10k_pci_rx_post_pipe, hb, hr, hn, hl]
  rw [hp]
  obtain ⟨_, _, _, _, _, q6⟩ := post_events_quiet d.next_id (ce_free_slots r.per_transfer_context)
  refine ⟨rfl, ?_, rfl, rfl, ?_, ?_, _, rfl, ?_⟩
  · simp [dev_posted, post_events_posted]
  · simp [dev_posted, q6]
  · simp [pipe_posted_free]
  · exact ce_store_many_occupied _ _ _ _ (le_refl _)

theorem rx_post_pipe_fills_ring_witness :
    (__ath10k_pci_rx_post_pipe env_ok dev0 pipe_rx4).1.calls = 4 ∧
    posted (__ath10k_pci_rx_post_pipe env_ok dev0 pipe_rx4).1.log = [0, 1, 2, 3] ∧
    __ath10k_ce_rx_num_free_bufs (__ath10k_pci_rx_post_pipe env_ok dev0 pipe_rx4).2.ce_hdl = 0 := by
  have h := rx_post_pipe_fills_ring env_ok dev0 pipe_rx4 ⟨[none, none, none, none], false, []⟩
    (by decide) rfl (by intro j _ _; exact ⟨rfl, rfl, rfl⟩)
  exact ⟨h.1, h.2.1, h.2.2.2.2.2.1⟩

/-- The replenishment of a pipe when the environment lets every call through. -/
theorem rx_post_pipe_allok (env : Env) (d : Dev) (pipe : PciPipe)
    (he : ∀ j, d.calls ≤ j → EnvOk env j) :
    timer_arms (__ath10k_pci_rx_post_pipe env d pipe).1.log = timer_arms d.log ∧
    d.calls ≤ (__ath10k_pci_rx_post_pipe env d pipe).1.calls := by
  unfold __ath10k_pci_rx_post_pipe
  by_cases hb : pipe.buf_sz = 0
  · simp [hb]
  · cases hr : pipe.ce_hdl.dest_ring with
    | none => simp [hb]
    | some r =>
      have hn : __ath10k_ce_rx_num_free_bufs pipe.ce_hdl =
          ce_free_slots r.per_transfer_context := by
        simp [__ath10k_ce_rx_num_free_bufs, hr]
      simp only [hb, if_false, hn]
      rw [rx_post_loop_ok env _ d pipe r hr (le_refl _) (fun j h1 _ => he j h1)]
      obtain ⟨_, _, _, _, _, q6⟩ :=
        post_events_quiet d.next_id (ce_free_slots r.per_transfer_context)
      simp [dev_posted, q6]

/-- The replenishment of a pipe set when the environment lets every call through. -/
theorem rx_post_allok (env : Env) (d : Dev) (pipes : List PciPipe)
    (he : ∀ j, d.calls ≤ j → EnvOk env j) :
    timer_arms (ath10k_pci_rx_post env d pipes).1.log = timer_arms d.log ∧
    d.calls ≤ (ath10k_pci_rx_post env d pipes).1.calls := by
  induction pipes generalizing d with
  | nil => simp [ath10k_pci_rx_post]
  | cons p rest ih =>
    obtain ⟨h1, h2⟩ := rx_post_pipe_allok env d p he
    obtain ⟨h3, h4⟩ := ih (__ath10k_pci_rx_post_pipe env d p).1
      (fun j hj => he j (le_trans h2 hj))
    simp only [ath10k_pci_rx_post]
    exact ⟨by rw [h3, h1], le_trans h2 h4⟩

theorem rx_post_append (env : Env) (d : Dev) (a b : List PciPipe) :
    ath10k_pci_rx_post env d (a ++ b) =
      ((ath10k_pci_rx_post env (ath10k_pci_rx_post env d a).1 b).1,
       (ath10k_pci_rx_post env d a).2 ++
         (ath10k_pci_rx_post env (ath10k_pci_rx_post env d a).1 b).2) := by
  induction a generalizing d with
  | nil => simp [ath10k_pci_rx_post]
  | cons p rest ih => simp [ath10k_pci_rx_post, ih]

theorem rx_post_length (env : Env) (d : Dev) (a : List PciPipe) :
    (ath10k_pci_rx_post env d a).2.length = a.length := by
  induction a generalizing d with
  | nil => simp [ath10k_pci_rx_post]
  | cons p rest ih => simp [ath10k_pci_rx_post, ih]

/-- C5. Partial replenishment and retry: on a pipe with `buf_sz > 0` whose
destination ring has `n` free slots, if the environment lets the first `k < n`
calls of `__ath10k_pci_rx_post_buf` through and not call `k + 1`, then
`__ath10k_pci_rx_post_pipe` makes `k + 1` calls and no more, exactly the `k`
fresh buffers are posted, allocated, mapped and owned by the ring, the free
slot count is `n - k`, and the timer is armed exactly once. If the environment
lets every later call through, the retry pass over a pipe set holding this
pipe posts exactly `n - k` more buffers while it handles this pipe, fills its
ring, and does not arm the timer. -/
theorem rx_post_pipe_partial_then_retry (env : Env) (d : Dev) (pipe : PciPipe) (r : CeRing)
    (k : Nat) (pre suf : List PciPipe)
    (hb : pipe.buf_sz ≠ 0) (hr : pipe.ce_hdl.dest_ring = some r)
    (hk : k < ce_free_slots r.per_transfer_context)
    (he : ∀ j, d.calls ≤ j → j < d.calls + k → EnvOk env j)
    (hf : ¬ EnvOk env (d.calls + k))
    (hl : ∀ j, d.calls + k + 1 ≤ j → EnvOk env j) :
    ((__ath10k_pci_rx_post_pipe env d pipe).1.calls = d.calls + k + 1 ∧
     posted (__ath10k_pci_rx_post_pipe env d pipe).1.log =
       posted d.log ++ List.range' d.next_id k ∧
     (__ath10k_pci_rx_post_pipe env d pipe).1.allocated = new_ids d.next_id k ++ d.allocated ∧
     (__ath10k_pci_rx_post_pipe env d pipe).1.mapped = new_ids d.next_id k ++ d.mapped ∧
     timer_arms (__ath10k_pci_rx_post_pipe env d pipe).1.log = timer_arms d.log + 1 ∧
     __ath10k_ce_rx_num_free_bufs (__ath10k_pci_rx_post_pipe env d pipe).2.ce_hdl =
       ce_free_slots r.per_transfer_context - k ∧
     ∃ r1, (__ath10k_pci_rx_post_pipe env d pipe).2.ce_hdl.dest_ring = some r1 ∧
       ce_occupied r1.per_transfer_context = ce_occupied r.per_transfer_context + k) ∧
    (∃ d1 pre1 d2 pipe2 d3 suf1,
      ath10k_pci_rx_post env (__ath10k_pci_rx_post_pipe env d pipe).1 pre = (d1, pre1) ∧
      __ath10k_pci_rx_post_pipe env d1 (__ath10k_pci_rx_post_pipe env d pipe).2 = (d2, pipe2) ∧
      ath10k_pci_rx_post env d2 suf = (d3, suf1) ∧
      ath10k_pci_rx_replenish_retry env (__ath10k_pci_rx_post_pipe env d pipe).1
        (pre ++ (__ath10k_pci_rx_post_pipe env d pipe).2 :: suf) = (d3, pre1 ++ pipe2 :: suf1) ∧
      pre1.length = pre.length ∧
      d2.calls = d1.calls + (ce_free_slots r.per_transfer_context - k) ∧
      posted d2.log =
        posted d1.log ++ List.range' d1.next_id (ce_free_slots r.per_transfer_context - k) ∧
      __ath10k_ce_rx_num_free_bufs pipe2.ce_hdl = 0 ∧
      (∃ r2, pipe2.ce_hdl.dest_ring = some r2 ∧
        ce_occupied r2.per_transfer_context =
          ce_occupied r.per_transfer_context + ce_free_slots r.per_transfer_context) ∧
      timer_arms d3.log = timer_arms (__ath10k_pci_rx_post_pipe env d pipe).1.log) := by
  have hn : __ath10k_ce_rx_num_free_bufs pipe.ce_hdl = ce_free_slots r.per_transfer_context := by
    simp [__ath10k_ce_rx_num_free_bufs, hr]
  have hp : __ath10k_pci_rx_post_pipe env d pipe =
      rx_post_loop env (ce_free_slots r.per_transfer_context) d pipe := by
    simp [__ath10k_pci_rx_post_pipe, hb, hr, hn]
  obtain ⟨f1, f2, f3, f4, f5, ev, f6, f7, f8, f9⟩ :=
    rx_post_loop_fail env (ce_free_slots r.per_transfer_context) k d pipe r hr hk (le_of_lt hk) he hf
  rw [← hp] at f1 f2 f3 f4 f5 f6
  obtain ⟨_, _, _, _, _, q6⟩ := post_events_quiet d.next_id k
  have hocc := ce_store_many_occupied pipe.buf_sz d.next_id k r.per_transfer_context (le_of_lt hk)
  refine ⟨⟨f2, ?_, f3, f4, ?_, ?_, ?_⟩, ?_⟩
  · have t1 : posted [Event.warn, Event.mod_timer] = [] := rfl
    rw [f6]
    simp only [posted_append, post_events_posted, f7, t1, List.append_nil]
  · have t2 : timer_arms [Event.warn, Event.mod_timer] = 1 := by decide
    rw [f6]
    simp only [timer_arms_append, q6, f8, t2]
  · rw [f1, pipe_posted_free]
  · rw [f1]; exact ⟨_, rfl, hocc⟩
  · -- the retry pass
    generalize __ath10k_pci_rx_post_pipe env d pipe = res at f1 f2
    obtain ⟨df, pf⟩ := res
    simp only at f1 f2
    subst f1
    have e0 : ∀ j, df.calls ≤ j → EnvOk env j := by
      intro j hj; rw [f2] at hj; exact hl j hj
    rcases hpre : ath10k_pci_rx_post env df pre with ⟨d1, pre1⟩
    have a := rx_post_allok env df pre e0
    have alen := rx_post_length env df pre
    rw [hpre] at a alen
    simp only at a alen
    have e1 : ∀ j, d1.calls ≤ j → EnvOk env j := fun j hj => e0 j (le_trans a.2 hj)
    have hfree : ce_free_slots (ce_store_many pipe.buf_sz d.next_id k r.per_transfer_context) =
        ce_free_slots r.per_transfer_context - k := ce_store_many_free _ _ _ _
    have hmid : __ath10k_pci_rx_post_pipe env d1 (pipe_posted pipe r d.next_id k) =
        (dev_posted d1 (ce_free_slots r.per_transfer_context - k),
         pipe_posted (pipe_posted pipe r d.next_id k)
           { r with per_transfer_context :=
               ce_store_many pipe.buf_sz d.next_id k r.per_transfer_context }
           d1.next_id (ce_free_slots r.per_transfer_context - k)) := by
      have hloop := rx_post_loop_ok env (ce_free_slots r.per_transfer_context - k) d1
        (pipe_posted pipe r d.next_id k)
        { r with per_transfer_context :=
            ce_store_many pipe.buf_sz d.next_id k r.per_transfer_context }
        rfl (by simp only [hfree]; exact le_refl _) (fun j h1 _ => e1 j h1)
      rw [← hloop]
      have hb2 : (pipe_posted pipe r d.next_id k).buf_sz ≠ 0 := hb
      unfold __ath10k_pci_rx_post_pipe
      simp only [hb2, if_false, pipe_posted_free]
      rfl
    rcases hsuf : ath10k_pci_rx_post env (dev_posted d1 (ce_free_slots r.per_transfer_context - k))
      suf with ⟨d3, suf1⟩
    have c := rx_post_allok env (dev_posted d1 (ce_free_slots r.per_transfer_context - k)) suf
      (fun j hj => e1 j (le_trans (by simp [dev_posted]) hj))
    rw [hsuf] at c
    simp only at c
    obtain ⟨_, _, _, _, _, q7⟩ :=
      post_events_quiet d1.next_id (ce_free_slots r.per_transfer_context - k)
    refine ⟨d1, pre1, _, _, d3, suf1, rfl, hmid, hsuf, ?_, alen, rfl, ?_, ?_, ?_, ?_⟩
    · simp [ath10k_pci_rx_replenish_retry, rx_post_append, ath10k_pci_rx_post, hpre, hmid, hsuf]
    · simp only [dev_posted, posted_append, post_events_posted]
    · rw [pipe_posted_free]; simp only [hfree]; omega
    · refine ⟨_, rfl, ?_⟩
      simp only
      rw [ce_store_many_occupied _ _ _ _ (by rw [hfree]), hocc]
      omega
    · rw [c.1, ← a.1]
      simp only [dev_posted, timer_arms_append, q7, Nat.add_zero]

/-! ## The completions reported by the ring -/

theorem getD_set_none (tbl : List (Option SkBuff)) (i j : Nat) :
    (tbl.set i none).getD j none = if i = j then none else tbl.getD j none := by
  simp only [List.getD_eq_getElem?_getD, List.getElem?_set]
  by_cases h : i = j
  · subst h
    by_cases h2 : i < tbl.length <;> simp [h2]
  · simp [h]

/-- When the ring reports no NULL transfer context, no slot is reported
twice, and every reported context is the one the slot held at the start. -/
theorem ce_reported_eq (tbl : List (Option SkBuff)) (cs : List (Nat × Nat))
    (h : ∀ x ∈ ce_reported tbl cs, x.1 ≠ none) :
    (cs.map Prod.fst).Nodup ∧
    ce_reported tbl cs = cs.map (fun c => (tbl.getD c.1 none, c.2)) := by
  induction cs generalizing tbl with
  | nil => simp [ce_reported]
  | cons c rest ih =>
    simp only [ce_reported, ce_completed_next, List.mem_cons, forall_eq_or_imp] at h
    obtain ⟨h0, h1⟩ := h
    obtain ⟨i1, i2⟩ := ih (tbl.set c.1 none) h1
    rw [i2] at h1
    have hne : ∀ c1 ∈ rest, c.1 ≠ c1.1 := by
      intro c1 hc1 heq
      have := h1 _ (List.mem_map_of_mem _ hc1)
      simp only [getD_set_none, heq, if_true, ne_eq, not_true_eq_false] at this
    refine ⟨?_, ?_⟩
    · simp only [List.map_cons, List.nodup_cons, List.mem_map, not_exists, not_and]
      exact ⟨fun c1 hc1 heq => hne c1 hc1 heq.symm, i1⟩
    · simp only [ce_reported, ce_completed_next, List.map_cons, i2, List.cons.injEq, true_and]
      apply List.map_congr_left
      intro c1 hc1
      simp [getD_set_none, hne c1 hc1]

/-- Conversely, distinct occupied slots are reported without a NULL context. -/
theorem ce_reported_ok (tbl : List (Option SkBuff)) (cs : List (Nat × Nat))
    (hd : (cs.map Prod.fst).Nodup) (ho : ∀ c ∈ cs, tbl.getD c.1 none ≠ none) :
    ∀ x ∈ ce_reported tbl cs, x.1 ≠ none := by
  induction cs generalizing tbl with
  | nil => simp [ce_reported]
  | cons c rest ih =>
    simp only [List.map_cons, List.nodup_cons, List.mem_map, not_exists, not_and] at hd
    simp only [ce_reported, ce_completed_next, List.mem_cons, forall_eq_or_imp]
    refine ⟨ho c (List.mem_cons_self _ _), ih _ hd.2 ?_⟩
    intro c1 hc1
    have hne : c.1 ≠ c1.1 := fun heq => hd.1 c1 hc1 heq.symm
    simp only [getD_set_none, hne, if_false]
    exact ho c1 (List.mem_cons_of_mem _ hc1)

/-! ## The drain loops -/

/-- The first loop of `ath10k_pci_ce_recv_data` when no NULL context is reported. -/
theorem recv_loop_some (d : Dev) (tbl : List (Option SkBuff)) (list : List SkBuff)
    (cs : List (Nat × Nat)) (h : ∀ x ∈ ce_reported tbl cs, x.1 ≠ none) :
    ∃ d1, recv_loop d tbl list cs =
        some (d1, ce_drained tbl cs, list ++ (ce_reported tbl cs).filterMap recv_keep) ∧
      d1.log = d.log ++ recv_log (ce_reported tbl cs) ∧
      d1.next_id = d.next_id ∧ d1.calls = d.calls := by
  induction cs generalizing d tbl list with
  | nil => exact ⟨d, by simp [recv_loop, ce_drained, ce_reported], by simp [ce_reported, recv_log],
      rfl, rfl⟩
  | cons c rest ih =>
    simp only [ce_reported, List.mem_cons, forall_eq_or_imp] at h
    obtain ⟨h0, h1⟩ := h
    cases hc : (ce_completed_next tbl c).1.1 with
    | none => exact absurd hc h0
    | some skb =>
      have hx : ce_completed_next tbl c = ((some skb, c.2), tbl.set c.1 none) := by
        simp only [ce_completed_next] at hc ⊢
        rw [hc]
      rw [hx] at h1
      by_cases hlt : skb.len + skb.tailroom < c.2
      · obtain ⟨d1, e1, e2, e3, e4⟩ := ih
          { d with mapped := d.mapped.erase skb.id, allocated := d.allocated.erase skb.id,
                   log := d.log ++ [Event.dma_unmap skb.id] ++ [Event.warn, Event.kfree_skb skb.id] }
          (tbl.set c.1 none) list h1
        refine ⟨d1, ?_, ?_, e3, e4⟩
        · simp only [recv_loop, hx, hlt, if_true, ce_drained, ce_reported, List.filterMap_cons,
            recv_keep, Nat.not_le.2 hlt, if_false]
          exact e1
        · rw [e2]
          simp [ce_reported, hx, recv_log, recv_events, hlt]
      · obtain ⟨d1, e1, e2, e3, e4⟩ := ih
          { d with mapped := d.mapped.erase skb.id, log := d.log ++ [Event.dma_unmap skb.id] }
          (tbl.set c.1 none) (list ++ [skb_put skb c.2]) h1
        refine ⟨d1, ?_, ?_, e3, e4⟩
        · simp only [recv_loop, hx, hlt, if_false, ce_drained, ce_reported, List.filterMap_cons,
            recv_keep, Nat.not_lt.1 hlt, if_true]
          rw [e1]
          simp
        · rw [e2]
          simp [ce_reported, hx, recv_log, recv_events, hlt]

/-- The first loop of `ath10k_pci_ce_recv_data` dereferences a NULL pointer
when the ring reports a NULL transfer context. -/
theorem recv_loop_none (d : Dev) (tbl : List (Option SkBuff)) (list : List SkBuff)
    (cs : List (Nat × Nat)) (h : ∃ x ∈ ce_reported tbl cs, x.1 = none) :
    recv_loop d tbl list cs = none := by
  induction cs generalizing d tbl list with
  | nil => simp [ce_reported] at h
  | cons c rest ih =>
    simp only [ce_reported, List.mem_cons, exists_eq_or_imp] at h
    cases hc : (ce_completed_next tbl c).1.1 with
    | none =>
      have hx : ce_completed_next tbl c = ((none, c.2), tbl.set c.1 none) := by
        simp only [ce_completed_next] at hc ⊢
        rw [hc]
      simp [recv_loop, hx]
    | some skb =>
      have hx : ce_completed_next tbl c = ((some skb, c.2), tbl.set c.1 none) := by
        simp only [ce_completed_next] at hc ⊢
        rw [hc]
      rcases h with h | h
      · rw [hc] at h; exact absurd h (by simp)
      · rw [hx] at h
        simp only [recv_loop, hx]
        split <;> exact ih _ _ _ h

/-- The first loop of `ath10k_pci_ce_send_done`. -/
theorem send_loop_eq (tbl : List (Option SkBuff)) (list : List SkBuff) (cs : List (Nat × Nat)) :
    send_loop tbl list cs =
      (ce_drained tbl cs, list ++ (ce_reported tbl cs).filterMap (fun x => x.1)) := by
  induction cs generalizing tbl list with
  | nil => simp [send_loop, ce_drained, ce_reported]
  | cons c rest ih =>
    cases hc : (ce_completed_next tbl c).1.1 with
    | none =>
      have hx : ce_completed_next tbl c = ((none, c.2), tbl.set c.1 none) := by
        simp only [ce_completed_next] at hc ⊢
        rw [hc]
      simp [send_loop, hx, ih, ce_drained, ce_reported]
    | some skb =>
      have hx : ce_completed_next tbl c = ((some skb, c.2), tbl.set c.1 none) := by
        simp only [ce_completed_next] at hc ⊢
        rw [hc]
      simp [send_loop, hx, ih, ce_drained, ce_reported]

/-! ## What the events of a call tell -/

theorem replenish_events_quiet (c : Nat) (ev : List Event)
    (h : ∀ e ∈ ev, replenish_event c e) :
    rx_delivered ev = [] ∧ tx_delivered ev = [] ∧ cleared ev = [] ∧
    (∀ i ∈ freed ev, c ≤ i) ∧ (∀ i ∈ unmapped ev, c ≤ i) := by
  induction ev with
  | nil => simp [rx_delivered, tx_delivered, cleared, freed, unmapped]
  | cons e rest ih =>
    obtain ⟨h1, h2, h3, h4, h5⟩ := ih (fun e he => h e (List.mem_cons_of_mem _ he))
    have he := h e (List.mem_cons_self _ _)
    simp only [rx_delivered, tx_delivered, cleared, freed, unmapped] at h1 h2 h3 h4 h5 ⊢
    cases e <;> simp only [replenish_event] at he <;>
      simp only [List.filterMap_cons, h1, h2, h3, List.mem_cons, forall_eq_or_imp, he,
        true_and, and_self] <;>
      exact ⟨h4, h5⟩

theorem recv_log_quiet (rep : List (Option SkBuff × Nat)) :
    rx_delivered (recv_log rep) = [] ∧ tx_delivered (recv_log rep) = [] ∧
    posted (recv_log rep) = [] ∧ allocs (recv_log rep) = [] ∧
    timer_arms (recv_log rep) = 0 := by
  induction rep with
  | nil => simp [recv_log, rx_delivered, tx_delivered, posted, allocs, timer_arms]
  | cons x rest ih =>
    obtain ⟨h1, h2, h3, h4, h5⟩ := ih
    obtain ⟨ctx, n⟩ := x
    simp only [recv_log, rx_delivered_append, tx_delivered_append, posted_append, allocs_append,
      timer_arms_append, h1, h2, h3, h4, h5]
    cases ctx with
    | none => simp [recv_events, rx_delivered, tx_delivered, posted, allocs, timer_arms]
    | some s =>
      by_cases hlt : s.len + s.tailroom < n <;>
        simp [recv_events, hlt, rx_delivered, tx_delivered, posted, allocs, timer_arms]

/-- Every buffer freed by the first loop of `ath10k_pci_ce_recv_data` was
reported with more bytes than it can hold. -/
theorem recv_log_freed (rep : List (Option SkBuff × Nat)) (id : Nat)
    (h : id ∈ freed (recv_log rep)) :
    ∃ x ∈ rep, ∃ s, x.1 = some s ∧ s.id = id ∧ s.len + s.tailroom < x.2 := by
  induction rep with
  | nil => simp [recv_log, freed] at h
  | cons x rest ih =>
    simp only [recv_log, freed_append, List.mem_append] at h
    rcases h with h | h
    · obtain ⟨ctx, n⟩ := x
      cases ctx with
      | none => simp [recv_events, freed] at h
      | some s =>
        by_cases hlt : s.len + s.tailroom < n
        · simp [recv_events, hlt, freed] at h
          exact ⟨_, List.mem_cons_self _ _, s, rfl, h.symm, hlt⟩
        · simp [recv_events, hlt, freed] at h
    · obtain ⟨y, hy, rest1⟩ := ih h
      exact ⟨y, List.mem_cons_of_mem _ hy, rest1⟩

/-- Every buffer reported with more bytes than it can hold is unmapped and
freed by the first loop of `ath10k_pci_ce_recv_data`. -/
theorem recv_log_drops (rep : List (Option SkBuff × Nat)) (s : SkBuff) (n : Nat)
    (h : (some s, n) ∈ rep) (hlt : s.len + s.tailroom < n) :
    s.id ∈ unmapped (recv_log rep) ∧ s.id ∈ freed (recv_log rep) := by
  induction rep with
  | nil => simp at h
  | cons x rest ih =>
    simp only [recv_log, unmapped_append, freed_append, List.mem_append]
    rcases List.mem_cons.1 h with h | h
    · subst h
      simp [recv_events, hlt, unmapped, freed]
    · exact ⟨Or.inr (ih h).1, Or.inr (ih h).2⟩

theorem rx_delivered_map (l : List SkBuff) : rx_delivered (l.map Event.rx_completion) = l := by
  induction l with
  | nil => rfl
  | cons x rest ih =>
    simp only [rx_delivered] at ih
    simp [rx_delivered, ih]

theorem tx_delivered_map (l : List SkBuff) : tx_delivered (l.map Event.tx_completion) = l := by
  induction l with
  | nil => rfl
  | cons x rest ih =>
    simp only [tx_delivered] at ih
    simp [tx_delivered, ih]

theorem rx_completions_quiet (l : List SkBuff) :
    freed (l.map Event.rx_completion) = [] ∧ unmapped (l.map Event.rx_completion) = [] ∧
    posted (l.map Event.rx_completion) = [] ∧ allocs (l.map Event.rx_completion) = [] ∧
    timer_arms (l.map Event.rx_completion) = 0 := by
  induction l with
  | nil => simp [freed, unmapped, posted, allocs, timer_arms]
  | cons x rest ih =>
    simp only [freed, unmapped, posted, allocs, timer_arms] at ih
    simp [freed, unmapped, posted, allocs, timer_arms, ih]

/-- What the replenishment of a pipe may do, whatever the environment. -/
theorem rx_post_pipe_frame (env : Env) (d : Dev) (pipe : PciPipe) :
    ∃ ev, (__ath10k_pci_rx_post_pipe env d pipe).1.log = d.log ++ ev ∧
      ∀ e ∈ ev, replenish_event d.next_id e := by
  unfold __ath10k_pci_rx_post_pipe
  by_cases hb : pipe.buf_sz = 0
  · exact ⟨[], by simp [hb], by simp⟩
  · cases hr : pipe.ce_hdl.dest_ring with
    | none => exact ⟨[], by simp [hb], by simp⟩
    | some r =>
      simp only [hb, if_false]
      exact (rx_post_loop_frame env _ d pipe).2.2.2

/-- The function `ath10k_pci_ce_recv_data` when no NULL context is reported:
the drain, the callbacks, then the replenishment. -/
theorem recv_data_some (env : Env) (d : Dev) (pipe : PciPipe) (r : CeRing)
    (hr : pipe.ce_hdl.dest_ring = some r)
    (h : ∀ x ∈ ce_reported r.per_transfer_context r.completed, x.1 ≠ none) :
    ∃ d1, d1.log = d.log ++ recv_log (ce_reported r.per_transfer_context r.completed) ++
          ((ce_reported r.per_transfer_context r.completed).filterMap recv_keep).map
            Event.rx_completion ∧
      d1.next_id = d.next_id ∧ d1.calls = d.calls ∧
      ath10k_pci_ce_recv_data env d pipe =
        some (__ath10k_pci_rx_post_pipe env d1
          { pipe with ce_hdl := { pipe.ce_hdl with dest_ring := some { r with
              per_transfer_context := ce_drained r.per_transfer_context r.completed,
              completed := [] } } }) := by
  obtain ⟨d1, e1, e2, e3, e4⟩ := recv_loop_some d r.per_transfer_context [] r.completed h
  generalize hk : (ce_reported r.per_transfer_context r.completed).filterMap recv_keep = kept
    at e1
  refine ⟨{ d1 with log := d1.log ++ kept.map Event.rx_completion }, by simp [e2], e3, e4, ?_⟩
  simp [ath10k_pci_ce_recv_data, hr, e1, ath10k_pci_rx_post_pipe]

/-- The events of `ath10k_pci_ce_recv_data` when no NULL context is reported. -/
theorem recv_data_events (env : Env) (d : Dev) (pipe : PciPipe) (r : CeRing)
    (hr : pipe.ce_hdl.dest_ring = some r)
    (h : ∀ x ∈ ce_reported r.per_transfer_context r.completed, x.1 ≠ none) :
    ∃ res ev, ath10k_pci_ce_recv_data env d pipe = some res ∧
      res.1.log = d.log ++ recv_log (ce_reported r.per_transfer_context r.completed) ++
          ((ce_reported r.per_transfer_context r.completed).filterMap recv_keep).map
            Event.rx_completion ++ ev ∧
      ∀ e ∈ ev, replenish_event d.next_id e := by
  obtain ⟨d1, e1, e2, _, e4⟩ := recv_data_some env d pipe r hr h
  obtain ⟨ev, f1, f2⟩ := rx_post_pipe_frame env d1
    { pipe with ce_hdl := { pipe.ce_hdl with dest_ring := some { r with
        per_transfer_context := ce_drained r.per_transfer_context r.completed,
        completed := [] } } }
  refine ⟨_, ev, e4, ?_, ?_⟩
  · rw [f1, e1]
  · rw [← e2]; exact f2

/-- On a completion within the range of the source's arithmetic, the
comparison on natural numbers keeps the buffers the `unsigned int` comparison
of the source keeps. -/
theorem recv_keep_in_range (x : Option SkBuff × Nat) (h : recv_in_range x) :
    recv_keep x = recv_keep_u32 x := by
  obtain ⟨ctx, n⟩ := x
  cases ctx with
  | none => rfl
  | some s =>
    simp only [recv_in_range] at h
    obtain ⟨h1, h2, _⟩ := h
    simp only [recv_keep, recv_keep_u32, Nat.mod_eq_of_lt h1, Nat.mod_eq_of_lt h2]
    by_cases hle : n ≤ s.len + s.tailroom
    · simp [hle, Nat.not_lt.2 hle]
    · simp [hle, Nat.lt_of_not_le hle]

theorem filterMap_recv_keep_in_range (rep : List (Option SkBuff × Nat))
    (h : ∀ x ∈ rep, recv_in_range x) :
    rep.filterMap recv_keep = rep.filterMap recv_keep_u32 := by
  induction rep with
  | nil => rfl
  | cons x rest ih =>
    have hx := recv_keep_in_range x (h x (List.mem_cons_self _ _))
    have hr := ih (fun y hy => h y (List.mem_cons_of_mem _ hy))
    simp only [List.filterMap_cons, hx, hr]

/-- C3. FIFO delivery within one drain: the buffers `ath10k_pci_ce_send_done`
gives to `tx_completion` are, in call order, the transfer contexts the source
ring reports, in report order, with the NULL ones removed; the buffers
`ath10k_pci_ce_recv_data` gives to `rx_completion` are, in call order, the
buffers the destination ring reports, in report order, with those for which
the source's `unsigned int` test `max_nbytes < nbytes` holds removed and the
others given their length. The receive part is for a drain in which the ring
reports no NULL context and every completion is within the range of the
source's arithmetic (`recv_in_range`); the call then returns. -/
theorem completions_delivered_in_order (env : Env) (d : Dev) (pipe : PciPipe) :
    (∀ r, pipe.ce_hdl.src_ring = some r →
      tx_delivered (ath10k_pci_ce_send_done d pipe).1.log =
        tx_delivered d.log ++
          (ce_reported r.per_transfer_context r.completed).filterMap (fun x => x.1)) ∧
    (∀ r, pipe.ce_hdl.dest_ring = some r →
      (∀ x ∈ ce_reported r.per_transfer_context r.completed, x.1 ≠ none) →
      (∀ x ∈ ce_reported r.per_transfer_context r.completed, recv_in_range x) →
      ∃ res, ath10k_pci_ce_recv_data env d pipe = some res ∧
        rx_delivered res.1.log =
          rx_delivered d.log ++
            (ce_reported r.per_transfer_context r.completed).filterMap (fun x =>
              match x.1 with
              | none => none
              | some skb =>
                if (skb.len + skb.tailroom) % 4294967296 < x.2 % 4294967296 then none
                else some (skb_put skb x.2)) ∧
        ∀ x ∈ ce_reported r.per_transfer_context r.completed, ∀ skb, x.1 = some skb →
          ¬ (skb.len + skb.tailroom) % 4294967296 < x.2 % 4294967296 →
          x.2 ≤ skb.tailroom ∧ skb.len + x.2 < 4294967296) := by
  constructor
  · intro r hr
    simp only [ath10k_pci_ce_send_done, hr, send_loop_eq, List.nil_append, tx_delivered_append,
      tx_delivered_map]
  · intro r hr h hrange
    obtain ⟨res, ev, e1, e2, e3⟩ := recv_data_events env d pipe r hr h
    obtain ⟨q1, _, _, _, _⟩ := replenish_events_quiet _ ev e3
    obtain ⟨p1, _, _, _, _⟩ := recv_log_quiet (ce_reported r.per_transfer_context r.completed)
    refine ⟨res, e1, ?_, ?_⟩
    · rw [e2]
      simp only [rx_delivered_append, q1, p1, rx_delivered_map, List.append_nil]
      rw [filterMap_recv_keep_in_range _ hrange]
      rfl
    · intro x hx skb hs hk
      have hxr := hrange x hx
      simp only [recv_in_range, hs] at hxr
      obtain ⟨h1, h2, h3⟩ := hxr
      rw [Nat.mod_eq_of_lt h1, Nat.mod_eq_of_lt h2] at hk
      have h4 := h3 (Nat.not_lt.1 hk)
      exact ⟨h4, by omega⟩

theorem completions_delivered_in_order_witness :
    tx_delivered (ath10k_pci_ce_send_done dev0 pipe_tx_fifo).1.log =
      [⟨9, 30, 0⟩, ⟨7, 100, 0⟩, ⟨8, 60, 0⟩] ∧
    ∃ res, ath10k_pci_ce_recv_data env_ok dev4 pipe_rx4_fifo = some res ∧
      rx_delivered res.1.log = [⟨2, 10, 246⟩, ⟨3, 20, 236⟩, ⟨1, 5, 251⟩] := by
  have h := completions_delivered_in_order env_ok dev4 pipe_rx4_fifo
  have g := completions_delivered_in_order env_ok dev0 pipe_tx_fifo
  obtain ⟨res, h1, h2, _⟩ := h.2 _ rfl (by decide) (by decide)
  exact ⟨g.1 _ rfl, res, h1, h2⟩

theorem recv_keep_id (x : Option SkBuff × Nat) (s : SkBuff) (h : recv_keep x = some s) :
    ∃ s0, x.1 = some s0 ∧ s0.id = s.id ∧ x.2 ≤ s0.len + s0.tailroom ∧ s = skb_put s0 x.2 := by
  obtain ⟨ctx, n⟩ := x
  cases ctx with
  | none => simp [recv_keep] at h
  | some s0 =>
    by_cases hle : n ≤ s0.len + s0.tailroom
    · simp only [recv_keep, hle, if_true, Option.some.injEq] at h
      exact ⟨s0, rfl, by rw [← h]; rfl, hle, h.symm⟩
    · simp [recv_keep, hle] at h

theorem fst_inj_of_nodup (cs : List (Nat × Nat)) (hd : (cs.map Prod.fst).Nodup)
    (a b : Nat × Nat) (ha : a ∈ cs) (hb : b ∈ cs) (h : a.1 = b.1) : a = b :=
  List.inj_on_of_nodup_map hd ha hb h

/-- C1. Receive round trip: a buffer with valid length 0 (as posted by
`__ath10k_pci_rx_post_buf`) that sits in a slot of the destination ring and
that the ring reports with `nbytes` not above its capacity is given to
`rx_completion` exactly once by `ath10k_pci_ce_recv_data`, with valid length
`nbytes`, and is not freed by that call. The ring reports no NULL context
and no other completed slot holds the same buffer. -/
theorem recv_round_trip (env : Env) (d : Dev) (pipe : PciPipe) (r : CeRing)
    (i nbytes : Nat) (skb : SkBuff)
    (hr : pipe.ce_hdl.dest_ring = some r)
    (hnull : ∀ x ∈ ce_reported r.per_transfer_context r.completed, x.1 ≠ none)
    (hc : (i, nbytes) ∈ r.completed)
    (hs : r.per_transfer_context.getD i none = some skb)
    (hlen : skb.len = 0) (hcap : nbytes ≤ skb.len + skb.tailroom)
    (hid : skb.id < d.next_id)
    (huniq : ∀ c ∈ r.completed, ∀ s, r.per_transfer_context.getD c.1 none = some s →
      s.id = skb.id → c.1 = i) :
    ∃ res ev pre post, ath10k_pci_ce_recv_data env d pipe = some res ∧
      res.1.log = d.log ++ ev ∧
      rx_delivered ev = pre ++ [skb_put skb nbytes] ++ post ∧
      (∀ s ∈ pre ++ post, s.id ≠ skb.id) ∧
      (skb_put skb nbytes).id = skb.id ∧ (skb_put skb nbytes).len = nbytes ∧
      skb.id ∉ freed ev := by
  obtain ⟨res, ev, e1, e2, e3⟩ := recv_data_events env d pipe r hr hnull
  obtain ⟨q1, _, _, q4, _⟩ := replenish_events_quiet _ ev e3
  obtain ⟨hd, hrep⟩ := ce_reported_eq _ _ hnull
  obtain ⟨p1, _, _, _, _⟩ := recv_log_quiet (ce_reported r.per_transfer_context r.completed)
  obtain ⟨l1, l2, hsplit⟩ := List.append_of_mem hc
  have hd2 := hd
  rw [hsplit] at hd2
  simp only [List.map_append, List.map_cons, List.nodup_append, List.nodup_cons, List.mem_map,
    not_exists, not_and, List.mem_cons, List.disjoint_cons_right] at hd2
  -- a delivered buffer with this identity comes from slot `i`
  have hkey : ∀ l : List (Nat × Nat), (∀ c ∈ l, c ∈ r.completed) → (∀ c ∈ l, c.1 ≠ i) →
      ∀ s ∈ (l.map (fun c => (r.per_transfer_context.getD c.1 none, c.2))).filterMap recv_keep,
        s.id ≠ skb.id := by
    intro l hl hne s hmem heq
    obtain ⟨x, hx, hk⟩ := List.mem_filterMap.1 hmem
    obtain ⟨c, hcl, rfl⟩ := List.mem_map.1 hx
    obtain ⟨s0, h1, h2, _, _⟩ := recv_keep_id _ _ hk
    exact hne c hcl (huniq c (hl c hcl) s0 h1 (h2.trans heq))
  have hin1 : ∀ c ∈ l1, c ∈ r.completed := fun c hc1 => by rw [hsplit]; simp [hc1]
  have hin2 : ∀ c ∈ l2, c ∈ r.completed := fun c hc2 => by rw [hsplit]; simp [hc2]
  have hne1 : ∀ c ∈ l1, c.1 ≠ i := fun c hc1 heq => hd2.2.2.1 c hc1 heq
  have hne2 : ∀ c ∈ l2, c.1 ≠ i := fun c hc2 heq => hd2.2.1.1 c hc2 heq
  have hkeep : recv_keep (some skb, nbytes) = some (skb_put skb nbytes) := by
    simp [recv_keep, hcap]
  refine ⟨res, recv_log (ce_reported r.per_transfer_context r.completed) ++
      (((ce_reported r.per_transfer_context r.completed).filterMap recv_keep).map
        Event.rx_completion ++ ev),
    (l1.map (fun c => (r.per_transfer_context.getD c.1 none, c.2))).filterMap recv_keep,
    (l2.map (fun c => (r.per_transfer_context.getD c.1 none, c.2))).filterMap recv_keep,
    e1, by rw [e2, List.append_assoc, List.append_assoc], ?_, ?_, rfl,
    by simp [skb_put, hlen], ?_⟩
  · simp only [rx_delivered_append, q1, p1, rx_delivered_map, List.append_nil, List.nil_append]
    rw [hrep]
    conv_lhs => rw [hsplit]
    simp only [List.map_append, List.map_cons, List.filterMap_append, List.filterMap_cons, hs,
      hkeep]
    simp
  · intro s hmem
    rcases List.mem_append.1 hmem with hmem | hmem
    · exact hkey l1 hin1 hne1 s hmem
    · exact hkey l2 hin2 hne2 s hmem
  · intro hfr
    simp only [freed_append, List.mem_append] at hfr
    rcases hfr with hfr | hfr | hfr
    · obtain ⟨x, hx, s, h1, h2, h3⟩ := recv_log_freed _ _ hfr
      rw [hrep] at hx
      obtain ⟨c, hcl, rfl⟩ := List.mem_map.1 hx
      have hci := huniq c hcl s h1 h2
      have hceq : c = (i, nbytes) := fst_inj_of_nodup _ hd c (i, nbytes) hcl hc hci
      subst hceq
      simp only at h1 h3
      rw [hs] at h1
      cases h1
      omega
    · rw [(rx_completions_quiet _).1] at hfr
      simp at hfr
    · have := q4 _ hfr
      omega

theorem recv_round_trip_witness :
    ∃ res ev pre post, ath10k_pci_ce_recv_data env_ok dev4 pipe_rx4_done = some res ∧
      res.1.log = dev4.log ++ ev ∧
      rx_delivered ev = pre ++ [skb_put ⟨0, 0, 256⟩ 10] ++ post ∧
      (∀ s ∈ pre ++ post, s.id ≠ 0) ∧
      (skb_put ⟨0, 0, 256⟩ 10).id = 0 ∧ (skb_put ⟨0, 0, 256⟩ 10).len = 10 ∧
      0 ∉ freed ev :=
  recv_round_trip env_ok dev4 pipe_rx4_done
    ⟨[some ⟨0, 0, 256⟩, some ⟨1, 0, 256⟩, some ⟨2, 0, 256⟩, some ⟨3, 0, 256⟩], false,
      [(2, 300), (0, 10)]⟩ 0 10 ⟨0, 0, 256⟩ rfl (by decide) (by decide) rfl rfl (by decide)
    (by decide) (by
      intro c hc s hs hid
      simp only [List.mem_cons, List.mem_singleton, List.not_mem_nil, or_false] at hc
      rcases hc with rfl | rfl
      · simp only [List.getD_cons_succ, List.getD_cons_zero, Option.some.injEq] at hs
        subst hs
        simp at hid
      · rfl)

/-- C2. Over-length receive is dropped: a buffer the destination ring reports
with more bytes than its capacity passes the source's `unsigned int` test
`max_nbytes < nbytes`, is unmapped and freed by `ath10k_pci_ce_recv_data` and
never given to `rx_completion`, and every buffer of the same drain reported
with a byte count within its capacity fails that test, takes the bytes inside
its room and is still given to `rx_completion`. The ring reports no NULL
context, every completion is within the range of the source's arithmetic
(`recv_in_range`), and no other completed slot holds the same buffer. -/
theorem recv_overlength_dropped (env : Env) (d : Dev) (pipe : PciPipe) (r : CeRing)
    (i nbytes : Nat) (skb : SkBuff)
    (hr : pipe.ce_hdl.dest_ring = some r)
    (hnull : ∀ x ∈ ce_reported r.per_transfer_context r.completed, x.1 ≠ none)
    (hrange : ∀ x ∈ ce_reported r.per_transfer_context r.completed, recv_in_range x)
    (hc : (i, nbytes) ∈ r.completed)
    (hs : r.per_transfer_context.getD i none = some skb)
    (hover : skb.len + skb.tailroom < nbytes)
    (huniq : ∀ c ∈ r.completed, ∀ s, r.per_transfer_context.getD c.1 none = some s →
      s.id = skb.id → c.1 = i) :
    (skb.len + skb.tailroom) % 4294967296 < nbytes % 4294967296 ∧
    ∃ res ev, ath10k_pci_ce_recv_data env d pipe = some res ∧
      res.1.log = d.log ++ ev ∧
      skb.id ∈ unmapped ev ∧ skb.id ∈ freed ev ∧
      (∀ s ∈ rx_delivered ev, s.id ≠ skb.id) ∧
      (∀ c ∈ r.completed, ∀ s, r.per_transfer_context.getD c.1 none = some s →
        c.2 ≤ s.len + s.tailroom →
        ¬ (s.len + s.tailroom) % 4294967296 < c.2 % 4294967296 ∧
        c.2 ≤ s.tailroom ∧ s.len + c.2 < 4294967296 ∧
        skb_put s c.2 ∈ rx_delivered ev) := by
  obtain ⟨res, ev, e1, e2, e3⟩ := recv_data_events env d pipe r hr hnull
  obtain ⟨q1, _, _, _, _⟩ := replenish_events_quiet _ ev e3
  obtain ⟨hd, hrep⟩ := ce_reported_eq _ _ hnull
  obtain ⟨p1, _, _, _, _⟩ := recv_log_quiet (ce_reported r.per_transfer_context r.completed)
  have hmem : (some skb, nbytes) ∈ ce_reported r.per_transfer_context r.completed := by
    rw [hrep]
    exact List.mem_map.2 ⟨(i, nbytes), hc, by simp only [hs]⟩
  obtain ⟨d1, d2⟩ := recv_log_drops _ skb nbytes hmem hover
  have hguard : (skb.len + skb.tailroom) % 4294967296 < nbytes % 4294967296 := by
    have hx := hrange _ hmem
    simp only [recv_in_range] at hx
    rw [Nat.mod_eq_of_lt hx.1, Nat.mod_eq_of_lt hx.2.1]
    exact hover
  refine ⟨hguard, res, recv_log (ce_reported r.per_transfer_context r.completed) ++
      (((ce_reported r.per_transfer_context r.completed).filterMap recv_keep).map
        Event.rx_completion ++ ev),
    e1, by rw [e2, List.append_assoc, List.append_assoc], ?_, ?_, ?_, ?_⟩
  · simp only [unmapped_append, List.mem_append]
    exact Or.inl d1
  · simp only [freed_append, List.mem_append]
    exact Or.inl d2
  · intro s hmem2 heq
    simp only [rx_delivered_append, q1, p1, rx_delivered_map, List.append_nil,
      List.nil_append] at hmem2
    obtain ⟨x, hx, hk⟩ := List.mem_filterMap.1 hmem2
    rw [hrep] at hx
    obtain ⟨c, hcl, rfl⟩ := List.mem_map.1 hx
    obtain ⟨s0, h1, h2, h3, _⟩ := recv_keep_id _ _ hk
    have hci := huniq c hcl s0 h1 (h2.trans heq)
    have hceq : c = (i, nbytes) := fst_inj_of_nodup _ hd c (i, nbytes) hcl hc hci
    subst hceq
    simp only at h1 h3
    rw [hs] at h1
    cases h1
    omega
  · intro c hcl s hsl hle
    have hmemc : (some s, c.2) ∈ ce_reported r.per_transfer_context r.completed := by
      rw [hrep]
      exact List.mem_map.2 ⟨c, hcl, by simp only [hsl]⟩
    have hx := hrange _ hmemc
    simp only [recv_in_range] at hx
    obtain ⟨h1, h2, h3⟩ := hx
    have h4 := h3 hle
    refine ⟨?_, h4, by omega, ?_⟩
    · rw [Nat.mod_eq_of_lt h1, Nat.mod_eq_of_lt h2]
      exact Nat.not_lt.2 hle
    · simp only [rx_delivered_append, q1, p1, rx_delivered_map, List.append_nil,
        List.nil_append]
      rw [hrep]
      refine List.mem_filterMap.2 ⟨(some s, c.2), List.mem_map.2 ⟨c, hcl, by simp only [hsl]⟩, ?_⟩
      simp [recv_keep, hle]

theorem recv_overlength_dropped_witness :
    (0 + 256) % 4294967296 < 300 % 4294967296 ∧
    ∃ res ev, ath10k_pci_ce_recv_data env_ok dev4 pipe_rx4_fifo = some res ∧
      res.1.log = dev4.log ++ ev ∧
      0 ∈ unmapped ev ∧ 0 ∈ freed ev ∧
      (∀ s ∈ rx_delivered ev, s.id ≠ 0) ∧
      skb_put ⟨2, 0, 256⟩ 10 ∈ rx_delivered ev ∧
      skb_put ⟨3, 0, 256⟩ 20 ∈ rx_delivered ev ∧
      skb_put ⟨1, 0, 256⟩ 5 ∈ rx_delivered ev := by
  have h := recv_overlength_dropped env_ok dev4 pipe_rx4_fifo
    ⟨[some ⟨0, 0, 256⟩, some ⟨1, 0, 256⟩, some ⟨2, 0, 256⟩, some ⟨3, 0, 256⟩], false,
      [(2, 10), (0, 300), (3, 20), (1, 5)]⟩ 0 300 ⟨0, 0, 256⟩ rfl (by decide) (by decide)
    (by decide) rfl (by decide)
    (by
      intro c hc s hs hid
      simp only [List.mem_cons, List.mem_singleton, List.not_mem_nil, or_false] at hc
      rcases hc with rfl | rfl | rfl | rfl
      · simp only [List.getD_cons_succ, List.getD_cons_zero, Option.some.injEq] at hs
        subst hs
        simp at hid
      · rfl
      · simp only [List.getD_cons_succ, List.getD_cons_zero, Option.some.injEq] at hs
        subst hs
        simp at hid
      · simp only [List.getD_cons_succ, List.getD_cons_zero, Option.some.injEq] at hs
        subst hs
        simp at hid)
  obtain ⟨g, res, ev, h1, h2, h3, h4, h5, h6⟩ := h
  exact ⟨g, res, ev, h1, h2, h3, h4, h5,
    (h6 (2, 10) (by decide) ⟨2, 0, 256⟩ rfl (by decide)).2.2.2,
    (h6 (3, 20) (by decide) ⟨3, 0, 256⟩ rfl (by decide)).2.2.2,
    (h6 (1, 5) (by decide) ⟨1, 0, 256⟩ rfl (by decide)).2.2.2⟩

theorem ce_free_set_none (tbl : List (Option SkBuff)) (i : Nat)
    (h : tbl.getD i none ≠ none) :
    ce_free_slots (tbl.set i none) = ce_free_slots tbl + 1 := by
  induction tbl generalizing i with
  | nil => simp at h
  | cons x rest ih =>
    cases i with
    | zero =>
      cases x with
      | none => simp at h
      | some s => simp [ce_free_slots]
    | succ i =>
      simp only [List.getD_cons_succ] at h
      cases x <;> simp [ce_free_slots, ih i h]

theorem ce_full_occupied (tbl : List (Option SkBuff)) (i : Nat)
    (hf : ce_free_slots tbl = 0) (hi : i < tbl.length) : tbl.getD i none ≠ none := by
  induction tbl generalizing i with
  | nil => simp at hi
  | cons x rest ih =>
    cases x with
    | none => simp [ce_free_slots] at hf
    | some s =>
      simp only [ce_free_slots] at hf
      cases i with
      | zero => simp
      | succ i =>
        simp only [List.getD_cons_succ]
        exact ih i hf (by simpa using hi)

/-- Draining distinct occupied slots frees one slot per completion. -/
theorem ce_drained_free (tbl : List (Option SkBuff)) (cs : List (Nat × Nat))
    (hd : (cs.map Prod.fst).Nodup) (ho : ∀ c ∈ cs, tbl.getD c.1 none ≠ none) :
    ce_free_slots (ce_drained tbl cs) = ce_free_slots tbl + cs.length := by
  induction cs generalizing tbl with
  | nil => simp [ce_drained]
  | cons c rest ih =>
    simp only [List.map_cons, List.nodup_cons, List.mem_map, not_exists, not_and] at hd
    have h0 := ho c (List.mem_cons_self _ _)
    simp only [ce_drained, ce_completed_next]
    rw [ih (tbl.set c.1 none) hd.2 ?_, ce_free_set_none tbl c.1 h0]
    · simp only [List.length_cons]; omega
    · intro c1 hc1
      have hne : c.1 ≠ c1.1 := fun heq => hd.1 c1 hc1 heq.symm
      simp only [getD_set_none, hne, if_false]
      exact ho c1 (List.mem_cons_of_mem _ hc1)

/-- C10. Receive capacity is restored after a drain: for a pipe with
`buf_sz > 0` whose destination ring is fully posted (0 free slots) and has `c`
pending completions of distinct slots, if the environment lets `c` calls of
`__ath10k_pci_rx_post_buf` through, then `ath10k_pci_ce_recv_data` returns,
makes exactly `c` calls which post the `c` fresh buffers, all after the last
`rx_completion` callback, arms no timer, and leaves the ring with 0 free
slots. -/
theorem recv_data_restores_capacity (env : Env) (d : Dev) (pipe : PciPipe) (r : CeRing)
    (hb : pipe.buf_sz ≠ 0) (hr : pipe.ce_hdl.dest_ring = some r)
    (hfull : ce_free_slots r.per_transfer_context = 0)
    (hd : (r.completed.map Prod.fst).Nodup)
    (hin : ∀ c ∈ r.completed, c.1 < r.nentries)
    (he : ∀ j, d.calls ≤ j → j < d.calls + r.completed.length → EnvOk env j) :
    ∃ res ev1 ev2, ath10k_pci_ce_recv_data env d pipe = some res ∧
      res.1.log = d.log ++ ev1 ++ ev2 ∧
      posted ev1 = [] ∧ allocs ev1 = [] ∧
      rx_delivered ev2 = [] ∧ timer_arms ev2 = 0 ∧
      posted ev2 = List.range' d.next_id r.completed.length ∧
      res.1.calls = d.calls + r.completed.length ∧
      __ath10k_ce_rx_num_free_bufs res.2.ce_hdl = 0 := by
  have ho : ∀ c ∈ r.completed, r.per_transfer_context.getD c.1 none ≠ none :=
    fun c hc => ce_full_occupied _ _ hfull (hin c hc)
  have hnull := ce_reported_ok _ _ hd ho
  obtain ⟨d1, e1, e2, e3, e4⟩ := recv_data_some env d pipe r hr hnull
  have hfree := ce_drained_free _ _ hd ho
  rw [hfull, Nat.zero_add] at hfree
  have hloop := rx_post_loop_ok env r.completed.length d1
    { pipe with ce_hdl := { pipe.ce_hdl with dest_ring := some { r with
        per_transfer_context := ce_drained r.per_transfer_context r.completed,
        completed := [] } } }
    { r with per_transfer_context := ce_drained r.per_transfer_context r.completed,
             completed := [] }
    rfl (by simp only [hfree]; exact le_refl _)
    (by intro j h1 h2; rw [e3] at h1 h2; exact he j h1 h2)
  have hpost : __ath10k_pci_rx_post_pipe env d1
      { pipe with ce_hdl := { pipe.ce_hdl with dest_ring := some { r with
        per_transfer_context := ce_drained r.per_transfer_context r.completed,
        completed := [] } } } = rx_post_loop env r.completed.length d1
      { pipe with ce_hdl := { pipe.ce_hdl with dest_ring := some { r with
        per_transfer_context := ce_drained r.per_transfer_context r.completed,
        completed := [] } } } := by
    simp only [__ath10k_pci_rx_post_pipe, hb, if_false, __ath10k_ce_rx_num_free_bufs, hfree]
  rw [hpost, hloop] at e4
  obtain ⟨_, _, p3, p4, _⟩ := recv_log_quiet (ce_reported r.per_transfer_context r.completed)
  obtain ⟨_, _, c3, c4, _⟩ := rx_completions_quiet
    ((ce_reported r.per_transfer_context r.completed).filterMap recv_keep)
  obtain ⟨q1, _, _, _, _, q6⟩ := post_events_quiet d.next_id r.completed.length
  refine ⟨_, recv_log (ce_reported r.per_transfer_context r.completed) ++
      ((ce_reported r.per_transfer_context r.completed).filterMap recv_keep).map
        Event.rx_completion, post_events d.next_id r.completed.length, e4, ?_, ?_, ?_, q1, q6,
      post_events_posted _ _, ?_, ?_⟩
  · simp only [dev_posted, e1, e2, List.append_assoc]
  · simp only [posted_append, p3, c3, List.append_nil]
  · simp only [allocs_append, p4, c4, List.append_nil]
  · simp only [dev_posted, e3]
  · rw [pipe_posted_free]
    simp only [hfree]
    omega

theorem recv_data_restores_capacity_witness :
    ∃ res ev1 ev2, ath10k_pci_ce_recv_data env_ok dev4 pipe_rx4_over = some res ∧
      res.1.log = dev4.log ++ ev1 ++ ev2 ∧
      posted ev1 = [] ∧ allocs ev1 = [] ∧
      rx_delivered ev2 = [] ∧ timer_arms ev2 = 0 ∧
      posted ev2 = [4] ∧
      res.1.calls = 5 ∧
      __ath10k_ce_rx_num_free_bufs res.2.ce_hdl = 0 :=
  recv_data_restores_capacity env_ok dev4 pipe_rx4_over
    ⟨[some ⟨0, 0, 256⟩, some ⟨1, 0, 256⟩, some ⟨2, 0, 256⟩, some ⟨3, 0, 256⟩], false,
      [(2, 300)]⟩ (by decide) rfl rfl (by decide) (by decide)
    (fun _ _ _ => ⟨rfl, rfl, rfl⟩)

/-! ## Teardown -/

theorem mem_occupied_slots (tbl : List (Option SkBuff)) (k i : Nat) (skb : SkBuff) :
    (i, skb) ∈ occupied_slots k tbl ↔ k ≤ i ∧ tbl.getD (i - k) none = some skb := by
  induction tbl generalizing k with
  | nil => simp [occupied_slots]
  | cons x rest ih =>
    cases x with
    | none =>
      simp only [occupied_slots, ih]
      constructor
      · rintro ⟨h1, h2⟩
        have : i - k = (i - (k + 1)) + 1 := by omega
        exact ⟨by omega, by rw [this]; simpa using h2⟩
      · rintro ⟨h1, h2⟩
        rcases Nat.eq_or_lt_of_le h1 with h | h
        · subst h; simp at h2
        · have : i - k = (i - (k + 1)) + 1 := by omega
          rw [this] at h2
          exact ⟨h, by simpa using h2⟩
    | some s =>
      simp only [occupied_slots, List.mem_cons, Prod.mk.injEq, ih]
      constructor
      · rintro (⟨rfl, rfl⟩ | ⟨h1, h2⟩)
        · simp
        · have : i - k = (i - (k + 1)) + 1 := by omega
          exact ⟨by omega, by rw [this]; simpa using h2⟩
      · rintro ⟨h1, h2⟩
        rcases Nat.eq_or_lt_of_le h1 with h | h
        · subst h
          simp only [Nat.sub_self, List.getD_cons_zero, Option.some.injEq] at h2
          exact Or.inl ⟨rfl, h2.symm⟩
        · have : i - k = (i - (k + 1)) + 1 := by omega
          rw [this] at h2
          exact Or.inr ⟨h, by simpa using h2⟩

theorem occupied_slots_lower (tbl : List (Option SkBuff)) (k : Nat) :
    ∀ x ∈ (occupied_slots k tbl).map Prod.fst, k ≤ x := by
  intro x hx
  obtain ⟨⟨i, s⟩, h1, rfl⟩ := List.mem_map.1 hx
  exact ((mem_occupied_slots tbl k i s).1 h1).1

theorem occupied_slots_increasing (tbl : List (Option SkBuff)) (k : Nat) :
    ((occupied_slots k tbl).map Prod.fst).Pairwise (fun a b => a < b) := by
  induction tbl generalizing k with
  | nil => simp [occupied_slots]
  | cons x rest ih =>
    cases x with
    | none => exact ih (k + 1)
    | some s =>
      simp only [occupied_slots, List.map_cons, List.pairwise_cons]
      exact ⟨fun a ha => occupied_slots_lower rest (k + 1) a ha, ih (k + 1)⟩

theorem occupied_slots_length (tbl : List (Option SkBuff)) (k : Nat) :
    (occupied_slots k tbl).length = ce_occupied tbl := by
  induction tbl generalizing k with
  | nil => rfl
  | cons x rest ih => cases x <;> simp [occupied_slots, ce_occupied, ih]

theorem occupied_slots_null (tbl : List (Option SkBuff)) (k : Nat) (h : slots_null tbl) :
    occupied_slots k tbl = [] := by
  induction tbl generalizing k with
  | nil => rfl
  | cons x rest ih =>
    have hx := h x (List.mem_cons_self _ _)
    subst hx
    exact ih (k + 1) (fun y hy => h y (List.mem_cons_of_mem _ hy))

theorem slots_null_map (tbl : List (Option SkBuff)) :
    slots_null (tbl.map (fun _ => (none : Option SkBuff))) := by
  intro x hx
  obtain ⟨_, _, rfl⟩ := List.mem_map.1 hx
  rfl

/-- The loop of `ath10k_pci_tx_pipe_cleanup`. -/
theorem tx_cleanup_loop_eq (d : Dev) (i : Nat) (tbl : List (Option SkBuff)) :
    tx_cleanup_loop d i tbl =
      ({ d with log := d.log ++ tx_cleanup_log (occupied_slots i tbl) },
       tbl.map (fun _ => none)) := by
  induction tbl generalizing d i with
  | nil => simp [tx_cleanup_loop, occupied_slots, tx_cleanup_log]
  | cons x rest ih =>
    cases x with
    | none => simp [tx_cleanup_loop, occupied_slots, ih]
    | some s => simp [tx_cleanup_loop, occupied_slots, tx_cleanup_log, ih]

/-- The loop of `ath10k_pci_rx_pipe_cleanup`. -/
theorem rx_cleanup_loop_eq (d : Dev) (i : Nat) (tbl : List (Option SkBuff)) :
    rx_cleanup_loop d i tbl =
      ({ d with mapped := erase_all d.mapped ((occupied_slots i tbl).map (fun x => x.2.id)),
                allocated := erase_all d.allocated ((occupied_slots i tbl).map (fun x => x.2.id)),
                log := d.log ++ rx_cleanup_log (occupied_slots i tbl) },
       tbl.map (fun _ => none)) := by
  induction tbl generalizing d i with
  | nil => simp [rx_cleanup_loop, occupied_slots, rx_cleanup_log, erase_all]
  | cons x rest ih =>
    cases x with
    | none => simp [rx_cleanup_loop, occupied_slots, ih]
    | some s => simp [rx_cleanup_loop, occupied_slots, rx_cleanup_log, erase_all, ih]

theorem tx_cleanup_log_obs (occ : List (Nat × SkBuff)) :
    tx_delivered (tx_cleanup_log occ) = occ.map Prod.snd ∧
    cleared (tx_cleanup_log occ) = occ.map Prod.fst ∧
    rx_delivered (tx_cleanup_log occ) = [] ∧ freed (tx_cleanup_log occ) = [] ∧
    unmapped (tx_cleanup_log occ) = [] := by
  induction occ with
  | nil => simp [tx_cleanup_log, tx_delivered, cleared, rx_delivered, freed, unmapped]
  | cons x rest ih =>
    obtain ⟨h1, h2, h3, h4, h5⟩ := ih
    simp only [tx_cleanup_log, tx_delivered_append, cleared_append, rx_delivered_append,
      freed_append, unmapped_append, h1, h2, h3, h4, h5]
    simp [tx_delivered, cleared, rx_delivered, freed, unmapped]

theorem rx_cleanup_log_obs (occ : List (Nat × SkBuff)) :
    freed (rx_cleanup_log occ) = occ.map (fun x => x.2.id) ∧
    unmapped (rx_cleanup_log occ) = occ.map (fun x => x.2.id) ∧
    cleared (rx_cleanup_log occ) = occ.map Prod.fst ∧
    rx_delivered (rx_cleanup_log occ) = [] ∧ tx_delivered (rx_cleanup_log occ) = [] := by
  induction occ with
  | nil => simp [rx_cleanup_log, tx_delivered, cleared, rx_delivered, freed, unmapped]
  | cons x rest ih =>
    obtain ⟨h1, h2, h3, h4, h5⟩ := ih
    simp only [rx_cleanup_log, tx_delivered_append, cleared_append, rx_delivered_append,
      freed_append, unmapped_append, h1, h2, h3, h4, h5]
    simp [tx_delivered, cleared, rx_delivered, freed, unmapped]

/-- The function `ath10k_pci_tx_pipe_cleanup` on a pipe it acts on. -/
theorem tx_pipe_cleanup_eq (d : Dev) (pipe : PciPipe) (r : CeRing)
    (hb : pipe.buf_sz ≠ 0) (hr : pipe.ce_hdl.src_ring = some r) (hs : r.shadow_base = true) :
    ath10k_pci_tx_pipe_cleanup d pipe =
      ({ d with log := d.log ++ tx_cleanup_log (occupied_slots 0 r.per_transfer_context) },
       { pipe with ce_hdl := { pipe.ce_hdl with src_ring := some { r with
           per_transfer_context := r.per_transfer_context.map (fun _ => none) } } }) := by
  simp [ath10k_pci_tx_pipe_cleanup, hr, hb, hs, tx_cleanup_loop_eq]

/-- The function `ath10k_pci_rx_pipe_cleanup` on a pipe it acts on. -/
theorem rx_pipe_cleanup_eq (d : Dev) (pipe : PciPipe) (r : CeRing)
    (hb : pipe.buf_sz ≠ 0) (hr : pipe.ce_hdl.dest_ring = some r) :
    ath10k_pci_rx_pipe_cleanup d pipe =
      ({ d with
           mapped := erase_all d.mapped
             ((occupied_slots 0 r.per_transfer_context).map (fun x => x.2.id)),
           allocated := erase_all d.allocated
             ((occupied_slots 0 r.per_transfer_context).map (fun x => x.2.id)),
           log := d.log ++ rx_cleanup_log (occupied_slots 0 r.per_transfer_context) },
       { pipe with ce_hdl := { pipe.ce_hdl with dest_ring := some { r with
           per_transfer_context := r.per_transfer_context.map (fun _ => none) } } }) := by
  simp [ath10k_pci_rx_pipe_cleanup, hr, hb, rx_cleanup_loop_eq]

/-- C9. Transmit/receive cleanup asymmetry: on a pipe with `buf_sz > 0`,
`ath10k_pci_tx_pipe_cleanup` (source ring with shadow base) logs, for the
occupied slots of the source ring in increasing slot order, the clearing of
the slot followed by one `tx_completion` call with its buffer, so that the
number of calls is the number of occupied slots, and it frees and unmaps
nothing; `ath10k_pci_rx_pipe_cleanup` (destination ring present) logs, for
the occupied slots of the destination ring in increasing order, the clearing
of the slot, then the unmapping and the freeing of its buffer, and invokes
neither `rx_completion` nor `tx_completion`. Both leave every slot NULL. -/
theorem cleanup_asymmetry (d : Dev) (pipe : PciPipe) (hb : pipe.buf_sz ≠ 0) :
    (∀ r, pipe.ce_hdl.src_ring = some r → r.shadow_base = true →
      (ath10k_pci_tx_pipe_cleanup d pipe).1.log =
        d.log ++ tx_cleanup_log (occupied_slots 0 r.per_transfer_context) ∧
      (∀ i skb, (i, skb) ∈ occupied_slots 0 r.per_transfer_context ↔
        r.per_transfer_context.getD i none = some skb) ∧
      ((occupied_slots 0 r.per_transfer_context).map Prod.fst).Pairwise (fun a b => a < b) ∧
      tx_delivered (tx_cleanup_log (occupied_slots 0 r.per_transfer_context)) =
        (occupied_slots 0 r.per_transfer_context).map Prod.snd ∧
      (tx_delivered (tx_cleanup_log (occupied_slots 0 r.per_transfer_context))).length =
        ce_occupied r.per_transfer_context ∧
      cleared (tx_cleanup_log (occupied_slots 0 r.per_transfer_context)) =
        (occupied_slots 0 r.per_transfer_context).map Prod.fst ∧
      freed (tx_cleanup_log (occupied_slots 0 r.per_transfer_context)) = [] ∧
      unmapped (tx_cleanup_log (occupied_slots 0 r.per_transfer_context)) = [] ∧
      rx_delivered (tx_cleanup_log (occupied_slots 0 r.per_transfer_context)) = [] ∧
      (ath10k_pci_tx_pipe_cleanup d pipe).1.allocated = d.allocated ∧
      (ath10k_pci_tx_pipe_cleanup d pipe).1.mapped = d.mapped ∧
      ring_null (ath10k_pci_tx_pipe_cleanup d pipe).2.ce_hdl.src_ring ∧
      (ath10k_pci_tx_pipe_cleanup d pipe).2.ce_hdl.dest_ring = pipe.ce_hdl.dest_ring) ∧
    (∀ r, pipe.ce_hdl.dest_ring = some r →
      (ath10k_pci_rx_pipe_cleanup d pipe).1.log =
        d.log ++ rx_cleanup_log (occupied_slots 0 r.per_transfer_context) ∧
      (∀ i skb, (i, skb) ∈ occupied_slots 0 r.per_transfer_context ↔
        r.per_transfer_context.getD i none = some skb) ∧
      ((occupied_slots 0 r.per_transfer_context).map Prod.fst).Pairwise (fun a b => a < b) ∧
      cleared (rx_cleanup_log (occupied_slots 0 r.per_transfer_context)) =
        (occupied_slots 0 r.per_transfer_context).map Prod.fst ∧
      unmapped (rx_cleanup_log (occupied_slots 0 r.per_transfer_context)) =
        (occupied_slots 0 r.per_transfer_context).map (fun x => x.2.id) ∧
      freed (rx_cleanup_log (occupied_slots 0 r.per_transfer_context)) =
        (occupied_slots 0 r.per_transfer_context).map (fun x => x.2.id) ∧
      rx_delivered (rx_cleanup_log (occupied_slots 0 r.per_transfer_context)) = [] ∧
      tx_delivered (rx_cleanup_log (occupied_slots 0 r.per_transfer_context)) = [] ∧
      (ath10k_pci_rx_pipe_cleanup d pipe).1.allocated =
        erase_all d.allocated
          ((occupied_slots 0 r.per_transfer_context).map (fun x => x.2.id)) ∧
      (ath10k_pci_rx_pipe_cleanup d pipe).1.mapped =
        erase_all d.mapped ((occupied_slots 0 r.per_transfer_context).map (fun x => x.2.id)) ∧
      ring_null (ath10k_pci_rx_pipe_cleanup d pipe).2.ce_hdl.dest_ring ∧
      (ath10k_pci_rx_pipe_cleanup d pipe).2.ce_hdl.src_ring = pipe.ce_hdl.src_ring) := by
  have hmem : ∀ (tbl : List (Option SkBuff)) i skb,
      (i, skb) ∈ occupied_slots 0 tbl ↔ tbl.getD i none = some skb := by
    intro tbl i skb
    rw [mem_occupied_slots]
    simp
  constructor
  · intro r hr hs
    obtain ⟨o1, o2, o3, o4, o5⟩ := tx_cleanup_log_obs (occupied_slots 0 r.per_transfer_context)
    rw [tx_pipe_cleanup_eq d pipe r hb hr hs]
    refine ⟨rfl, hmem _, occupied_slots_increasing _ 0, o1, ?_, o2, o4, o5, o3, rfl, rfl,
      slots_null_map _, rfl⟩
    rw [o1, List.length_map, occupied_slots_length]
  · intro r hr
    obtain ⟨o1, o2, o3, o4, o5⟩ := rx_cleanup_log_obs (occupied_slots 0 r.per_transfer_context)
    rw [rx_pipe_cleanup_eq d pipe r hb hr]
    exact ⟨rfl, hmem _, occupied_slots_increasing _ 0, o3, o2, o1, o4, o5, rfl, rfl,
      slots_null_map _, rfl⟩

theorem cleanup_asymmetry_witness :
    (ath10k_pci_tx_pipe_cleanup dev0 pipe_both).1.log =
      [Event.ctx_clear 1, Event.tx_completion ⟨11, 40, 0⟩,
       Event.ctx_clear 2, Event.tx_completion ⟨12, 50, 0⟩] ∧
    (ath10k_pci_rx_pipe_cleanup dev0 pipe_both).1.log =
      [Event.ctx_clear 0, Event.dma_unmap 13, Event.kfree_skb 13,
       Event.ctx_clear 2, Event.dma_unmap 14, Event.kfree_skb 14] := by
  have h := cleanup_asymmetry dev0 pipe_both (by decide)
  exact ⟨(h.1 _ rfl rfl).1, (h.2 _ rfl).1⟩

/-- One step of `ath10k_pci_buffer_cleanup` leaves no buffer in a pipe whose
skipped rings hold none. -/
theorem pipe_cleanup_null (d : Dev) (pipe : PciPipe) (h : skipped_empty pipe) :
    pipe_null (ath10k_pci_tx_pipe_cleanup (ath10k_pci_rx_pipe_cleanup d pipe).1
      (ath10k_pci_rx_pipe_cleanup d pipe).2).2 := by
  obtain ⟨h1, h2⟩ := h
  by_cases hb : pipe.buf_sz = 0
  · have hn := h1 hb
    have e1 : ath10k_pci_rx_pipe_cleanup d pipe = (d, pipe) := by
      unfold ath10k_pci_rx_pipe_cleanup
      cases pipe.ce_hdl.dest_ring <;> simp [hb]
    have e2 : ath10k_pci_tx_pipe_cleanup d pipe = (d, pipe) := by
      unfold ath10k_pci_tx_pipe_cleanup
      cases pipe.ce_hdl.src_ring <;> simp [hb]
    rw [e1, e2]
    exact hn
  · -- the receive side
    have hrx : ring_null (ath10k_pci_rx_pipe_cleanup d pipe).2.ce_hdl.dest_ring ∧
        (ath10k_pci_rx_pipe_cleanup d pipe).2.ce_hdl.src_ring = pipe.ce_hdl.src_ring ∧
        (ath10k_pci_rx_pipe_cleanup d pipe).2.buf_sz = pipe.buf_sz := by
      cases hr : pipe.ce_hdl.dest_ring with
      | none => simp [ath10k_pci_rx_pipe_cleanup, hr, ring_null]
      | some r =>
        rw [rx_pipe_cleanup_eq d pipe r hb hr]
        exact ⟨slots_null_map _, rfl, rfl⟩
    generalize ath10k_pci_rx_pipe_cleanup d pipe = res at hrx
    obtain ⟨d1, p1⟩ := res
    obtain ⟨g1, g2, g3⟩ := hrx
    simp only at g1 g2 g3
    have hb1 : p1.buf_sz ≠ 0 := by rw [g3]; exact hb
    cases hs : p1.ce_hdl.src_ring with
    | none =>
      have e : ath10k_pci_tx_pipe_cleanup d1 p1 = (d1, p1) := by
        simp [ath10k_pci_tx_pipe_cleanup, hs]
      rw [e]
      exact ⟨g1, by simp only [hs, ring_null]⟩
    | some r =>
      cases hsb : r.shadow_base with
      | false =>
        have e : (ath10k_pci_tx_pipe_cleanup d1 p1).2 = p1 := by
          simp [ath10k_pci_tx_pipe_cleanup, hs, hb1, hsb]
        rw [e]
        refine ⟨g1, ?_⟩
        rw [hs]
        exact h2 r (by rw [← g2, hs]) hsb
      | true =>
        rw [tx_pipe_cleanup_eq d1 p1 r hb1 hs hsb]
        exact ⟨g1, slots_null_map _⟩

theorem set_bufs_null (pipes : List PciPipe) (h : ∀ p ∈ pipes, pipe_null p) :
    set_bufs pipes = [] := by
  induction pipes with
  | nil => rfl
  | cons p rest ih =>
    have hp := h p (List.mem_cons_self _ _)
    have hrn : ∀ r : Option CeRing, ring_null r → ring_bufs r = [] := by
      intro r hr
      cases r with
      | none => rfl
      | some r => simp [ring_bufs, occupied_slots_null _ 0 hr]
    simp [set_bufs, hrn _ hp.1, hrn _ hp.2, ih (fun q hq => h q (List.mem_cons_of_mem _ hq))]

/-- C7 (as amended). Teardown safety: for every state of the pipe set in
which the pipes with `buf_sz == 0` and the source rings without shadow base
hold no buffer, after `ath10k_pci_buffer_cleanup` every slot of every
destination ring and source ring is NULL and no buffer is referenced by a
ring slot. -/
theorem buffer_cleanup_clears_slots (d : Dev) (pipes : List PciPipe)
    (h : ∀ p ∈ pipes, skipped_empty p) :
    (ath10k_pci_buffer_cleanup d pipes).2.length = pipes.length ∧
    (∀ p ∈ (ath10k_pci_buffer_cleanup d pipes).2, pipe_null p) ∧
    set_bufs (ath10k_pci_buffer_cleanup d pipes).2 = [] := by
  have key : (ath10k_pci_buffer_cleanup d pipes).2.length = pipes.length ∧
      ∀ p ∈ (ath10k_pci_buffer_cleanup d pipes).2, pipe_null p := by
    induction pipes generalizing d with
    | nil => simp [ath10k_pci_buffer_cleanup]
    | cons p rest ih =>
      have hp := pipe_cleanup_null d p (h p (List.mem_cons_self _ _))
      obtain ⟨i1, i2⟩ := ih (ath10k_pci_tx_pipe_cleanup (ath10k_pci_rx_pipe_cleanup d p).1
        (ath10k_pci_rx_pipe_cleanup d p).2).1 (fun q hq => h q (List.mem_cons_of_mem _ hq))
      simp only [ath10k_pci_buffer_cleanup, List.length_cons, i1, List.mem_cons,
        forall_eq_or_imp, true_and]
      exact ⟨hp, i2⟩
  exact ⟨key.1, key.2, set_bufs_null _ key.2⟩

theorem buffer_cleanup_clears_slots_witness :
    (∀ p ∈ [pipe_both, pipe_tx], skipped_empty p) ∧
    ((ath10k_pci_buffer_cleanup dev0 [pipe_both, pipe_tx]).2.length = 2 ∧
     (∀ p ∈ (ath10k_pci_buffer_cleanup dev0 [pipe_both, pipe_tx]).2, pipe_null p) ∧
     set_bufs (ath10k_pci_buffer_cleanup dev0 [pipe_both, pipe_tx]).2 = []) := by
  have hs : ∀ p ∈ [pipe_both, pipe_tx], skipped_empty p := by
    intro p hp
    simp only [List.mem_cons, List.mem_singleton, List.not_mem_nil, or_false] at hp
    rcases hp with rfl | rfl
    · exact ⟨fun h => absurd h (by decide), fun r hr hsb => by
        simp only [pipe_both, Option.some.injEq] at hr; subst hr; simp at hsb⟩
    · exact ⟨fun h => absurd h (by decide), fun r hr hsb => by
        simp only [pipe_tx, Option.some.injEq] at hr; subst hr; simp at hsb⟩
  exact ⟨hs, buffer_cleanup_clears_slots dev0 [pipe_both, pipe_tx] hs⟩

/-- C7 (as stated) fails: a pipe with `buf_sz == 0` whose rings hold buffers
keeps them through `ath10k_pci_buffer_cleanup`: not every slot is NULL
afterwards, and a buffer that occupied a slot is still referenced. -/
theorem buffer_cleanup_skips_zero_size :
    (¬ ∀ p ∈ (ath10k_pci_buffer_cleanup dev0 [pipe_both, pipe_zero]).2, pipe_null p) ∧
    (¬ ∀ skb ∈ set_bufs [pipe_both, pipe_zero],
         skb ∉ set_bufs (ath10k_pci_buffer_cleanup dev0 [pipe_both, pipe_zero]).2) := by
  decide

theorem rx_post_buf_atomic_witness :
    (__ath10k_pci_rx_post_buf env_nomap dev0 pipe_rx4).1 = - EIO ∧
    (__ath10k_pci_rx_post_buf env_nomap dev0 pipe_rx4).2.1.log =
      [Event.m_get2 0, Event.warn, Event.kfree_skb 0] ∧
    (__ath10k_pci_rx_post_buf env_nomap dev0 pipe_rx4).2.1.allocated = [] ∧
    (__ath10k_pci_rx_post_buf env_nomap dev0 pipe_rx4).2.1.mapped = [] ∧
    (__ath10k_pci_rx_post_buf env_nomap dev0 pipe_rx4).2.2 = pipe_rx4 := by
  have h := rx_post_buf_atomic env_nomap dev0 pipe_rx4
  have h1 := h.2.2.2.1 rfl rfl
  have h2 := h.2.2.2.2.2 (by decide)
  exact ⟨h1.1, h1.2, h2.1, h2.2.1, h2.2.2⟩

theorem rx_post_pipe_partial_then_retry_witness :
    (2 < ce_free_slots [none, none, none, none] ∧ ¬ EnvOk env_third (dev0.calls + 2)) ∧
    ((__ath10k_pci_rx_post_pipe env_third dev0 pipe_rx4).1.calls = 3 ∧
     posted (__ath10k_pci_rx_post_pipe env_third dev0 pipe_rx4).1.log = [0, 1] ∧
     timer_arms (__ath10k_pci_rx_post_pipe env_third dev0 pipe_rx4).1.log = 1 ∧
     __ath10k_ce_rx_num_free_bufs (__ath10k_pci_rx_post_pipe env_third dev0 pipe_rx4).2.ce_hdl
       = 2) ∧
    (∃ d1 pre1 d2 pipe2 d3 suf1,
      ath10k_pci_rx_post env_third (__ath10k_pci_rx_post_pipe env_third dev0 pipe_rx4).1
        [pipe_zero] = (d1, pre1) ∧
      __ath10k_pci_rx_post_pipe env_third d1
        (__ath10k_pci_rx_post_pipe env_third dev0 pipe_rx4).2 = (d2, pipe2) ∧
      ath10k_pci_rx_post env_third d2 [] = (d3, suf1) ∧
      ath10k_pci_rx_replenish_retry env_third
        (__ath10k_pci_rx_post_pipe env_third dev0 pipe_rx4).1
        ([pipe_zero] ++ (__ath10k_pci_rx_post_pipe env_third dev0 pipe_rx4).2 :: []) =
          (d3, pre1 ++ pipe2 :: suf1) ∧
      d2.calls = d1.calls + 2 ∧
      posted d2.log = posted d1.log ++ List.range' d1.next_id 2 ∧
      __ath10k_ce_rx_num_free_bufs pipe2.ce_hdl = 0 ∧
      timer_arms d3.log = 1) := by
  have h := rx_post_pipe_partial_then_retry env_third dev0 pipe_rx4
    ⟨[none, none, none, none], false, []⟩ 2 [pipe_zero] [] (by decide) rfl (by decide)
    (by
      intro j h1 h2
      have h3 : j = 0 ∨ j = 1 := by simp only [dev0] at h1 h2; omega
      rcases h3 with rfl | rfl <;> decide)
    (by decide)
    (by
      intro j h1
      have h3 : j ≠ 2 := by simp only [dev0] at h1; omega
      exact ⟨by simp [env_third, h3], rfl, rfl⟩)
  obtain ⟨⟨a1, a2, _, _, a5, a6, _⟩, d1, pre1, d2, pipe2, d3, suf1, b1, b2, b3, b4, _, b6, b7,
    b8, _, b10⟩ := h
  exact ⟨⟨by decide, by decide⟩, ⟨a1, a2, a5, a6⟩, d1, pre1, d2, pipe2, d3, suf1, b1, b2, b3, b4,
    b6, b7, b8, by rw [b10, a5]; rfl⟩

end Athp
